import Mathlib

/-!
Verification development for the obsidian-pkvs repository: a shallow embedding of
the serialization engine (`src/serialize.ts`, a modified vendored copy of
serialize-javascript) and of the persistence-policy layer (`main.ts`:
`PersistentStore`, `PersistentStoreGlobal`, `PKVSPlugin` settings).
-/

/-- Model of a JavaScript number as stored in the plugin's data store.
Finite numbers are modelled by integers (all numeric literals appearing in the
claims are integers); the non-finite values `NaN`, `Infinity` and `-Infinity`
are explicit constructors, since `serialize.ts` treats them specially. -/
inductive JSNum where
  | int (n : Int)
  | nan
  | inf
  | negInf
deriving DecidableEq, Repr

/-- Model of a JavaScript value graph as processed by `serializeJS`
(src/serialize.ts).  One constructor per runtime shape the serializer
distinguishes:
* `str`, `num`, `bool`, `null`, `undef`: primitives;
* `bigint`: arbitrary-precision integer;
* `date iso`: a `Date`, represented by `some s` where `s` is its
  `toISOString()` result, or `none` for an invalid date (time value `NaN`,
  whose `toJSON()` is `null` and whose `toISOString()` throws `RangeError`);
* `regexp source flags`: a `RegExp` with its `source` and `flags` strings;
* `jsMap` / `jsSet`: a `Map` (entry list in insertion order) / `Set`;
* `url href`: a `URL`, represented by its `toString()`/`href` text;
* `func src name`: a function, represented by its `toString()` source text and
  its `name` (used in the native-function error message);
* `obj`: a plain object, fields listed in JS enumeration order;
* `arr`: an array; `none` elements are holes, so an array is sparse
  (in the sense of the `filter`-based check in the replacer) iff some element
  is `none`. -/
inductive JSValue where
  | str (s : String)
  | num (n : JSNum)
  | bool (b : Bool)
  | null
  | undef
  | bigint (i : Int)
  | date (iso : Option String)
  | regexp (source : String) (flags : String)
  | jsMap (entries : List (JSValue × JSValue))
  | jsSet (elems : List JSValue)
  | url (href : String)
  | func (src : String) (name : String)
  | obj (fields : List (String × JSValue))
  | arr (elems : List (Option JSValue))

mutual

/-- Weighted size of a value, used as recursion fuel for the serializer.
The paddings are chosen so that each value the serializer re-serializes
(the `Array.from(...)` / `Object.assign(...)` reconstruction arguments) is
strictly smaller than the value it came from. -/
def msize : JSValue → Nat
  | .str _ => 1
  | .num _ => 1
  | .bool _ => 1
  | .null => 1
  | .undef => 1
  | .bigint _ => 1
  | .date _ => 1
  | .regexp _ _ => 4
  | .url _ => 4
  | .func _ _ => 1
  | .obj fs => 4 + msizeFields fs
  | .arr es => 6 + msizeElems es
  | .jsMap es => 8 + msizePairs es
  | .jsSet es => 8 + msizeList es

def msizeFields : List (String × JSValue) → Nat
  | [] => 0
  | (_, v) :: t => 4 + msize v + msizeFields t

def msizeElems : List (Option JSValue) → Nat
  | [] => 0
  | e :: t => 6 + msizeOpt e + msizeElems t

def msizeOpt : Option JSValue → Nat
  | none => 0
  | some v => msize v

def msizePairs : List (JSValue × JSValue) → Nat
  | [] => 0
  | (k, v) :: t => 26 + msize k + msize v + msizePairs t

def msizeList : List JSValue → Nat
  | [] => 0
  | v :: t => 8 + msize v + msizeList t

end


/-- Errors the serializer / persistence layer can raise.
* `nativeFunction name`: the `TypeError("Serializing native function: " + fn.name)`
  thrown by `serializeFunc` (src/serialize.ts lines 185-189); the spec calls this
  `UnsupportedValue`.
* `rangeError`: `toISOString()` on an invalid `Date` throws `RangeError`.
* `bigintUnsupported`: `JSON.stringify` without a replacer throws on `BigInt`.
* `lookupFailed tag`: the substitution callback dereferences a missing table
  entry (possible only for a placeholder-shaped user string that collides with
  the session UID), throwing a `TypeError`.
* `outOfFuel`: modelling artifact of the fuelled recursion; unreachable when the
  serializer is entered through `serializeJS` (fuel `msize v + 1`). -/
inductive SerErr where
  | nativeFunction (name : String)
  | rangeError
  | bigintUnsupported
  | lookupFailed (tag : Char)
  | outOfFuel
deriving DecidableEq

/-- `typeof` on a modelled value. `null` has type `"object"` in JavaScript. -/
def typeOf : JSValue → String
  | .str _ => "string"
  | .num _ => "number"
  | .bool _ => "boolean"
  | .undef => "undefined"
  | .bigint _ => "bigint"
  | .func _ _ => "function"
  | _ => "object"

/-- JavaScript falsiness of a modelled value (`!value`): `""`, `0`, `NaN`,
`false`, `null`, `undefined` and `BigInt(0)` are falsy; every object is truthy. -/
def jsFalsy : JSValue → Bool
  | .str s => s == ""
  | .num (.int n) => n == 0
  | .num .nan => true
  | .bool b => !b
  | .null => true
  | .undef => true
  | .bigint i => i == 0
  | _ => false

/-- The replacer's fast-exit condition (src/serialize.ts line 125):
`!value && value !== undefined && value !== BigInt(0)`. -/
def fastExitCond (v : JSValue) : Bool :=
  jsFalsy v
    && !(match v with | .undef => true | _ => false)
    && !(match v with | .bigint i => i == 0 | _ => false)

/-- The `toJSON` conversion `JSON.stringify` applies before calling the
replacer: `Date.prototype.toJSON` yields the ISO string for a valid date and
`null` for an invalid one; `URL.prototype.toJSON` yields the `href` text.
No other modelled value has a `toJSON` method. -/
def toJSONconv : JSValue → JSValue
  | .date none => .null
  | .date (some s) => .str s
  | .url h => .str h
  | v => v

def isFunctionVal : JSValue → Bool
  | .func _ _ => true
  | _ => false

def isUndefVal : JSValue → Bool
  | .undef => true
  | _ => false

-- String helpers -------------------------------------------------------------

def hexDigitChar (n : Nat) : Char :=
  if n < 10 then Char.ofNat (48 + n) else Char.ofNat (87 + (n % 16))

def hex4 (n : Nat) : String :=
  String.mk [hexDigitChar (n / 4096 % 16), hexDigitChar (n / 256 % 16),
             hexDigitChar (n / 16 % 16), hexDigitChar (n % 16)]

/-- One character of JSON string quoting (the `QuoteJSONString` algorithm used
by `JSON.stringify`). -/
def quoteJSONChar (c : Char) : String :=
  if c = '"' then "\\\""
  else if c = '\\' then "\\\\"
  else if c = '\x08' then "\\b"
  else if c = '\x0c' then "\\f"
  else if c = '\n' then "\\n"
  else if c = '\r' then "\\r"
  else if c = '\t' then "\\t"
  else if c.val < 0x20 then "\\u" ++ hex4 c.toNat
  else String.mk [c]

/-- JSON string quoting of a whole string, used for JSON string values and
object keys. -/
def jsonQuote (s : String) : String :=
  "\"" ++ String.join (s.data.map quoteJSONChar) ++ "\""

/-- One character of the unsafe-character escape (src/serialize.ts
`ESCAPED_CHARS` / `escapeUnsafeChars`): `<`, `>`, `/` and the line separators
U+2028/U+2029 are replaced by Unicode escapes; everything else is unchanged. -/
def escapeUnsafeChar (c : Char) : String :=
  if c = '<' then "\\u003C"
  else if c = '>' then "\\u003E"
  else if c = '/' then "\\u002F"
  else if c = ' ' then "\\u2028"
  else if c = ' ' then "\\u2029"
  else String.mk [c]

/-- `str.replace(UNSAFE_CHARS_REGEXP, escapeUnsafeChars)` (src/serialize.ts
line 258). -/
def escapeUnsafe (s : String) : String :=
  String.join (s.data.map escapeUnsafeChar)

/-- JSON rendering of a number value: finite numbers print in decimal,
non-finite numbers (`NaN`, `Infinity`, `-Infinity`) print as `null`. -/
def renderNum : JSNum → String
  | .int n => toString n
  | _ => "null"

-- serializeFunc (src/serialize.ts lines 185-226) ------------------------------

/-- The whitespace class `\s` of the `IS_NATIVE_CODE_REGEXP`, restricted to the
ASCII whitespace characters that can occur in function source text. -/
def isJsWS (c : Char) : Bool :=
  c = ' ' || c = '\t' || c = '\n' || c = '\r' || c = '\x0b' || c = '\x0c'

/-- Does `IS_NATIVE_CODE_REGEXP` = `/\{\s*\[native code\]\s*\}/` match at the
head of the character list? -/
def matchNativeAt (cs : List Char) : Bool :=
  match cs with
  | '{' :: rest =>
    let r1 := rest.dropWhile isJsWS
    if "[native code]".data.isPrefixOf r1 then
      match (r1.drop 13).dropWhile isJsWS with
      | '}' :: _ => true
      | _ => false
    else false
  | _ => false

/-- Search for the native-code marker anywhere in the source text.
The source regexp carries the `g` flag and is therefore stateful across
`.test` calls (`lastIndex`); this is immaterial here because a failed `.test`
resets `lastIndex` to 0, and in every execution the claims reason about, all
tests before the first success fail. -/
def hasNativeMarker : List Char → Bool
  | [] => false
  | c :: t => matchNativeAt (c :: t) || hasNativeMarker t

/-- Is there a `(` at or after the current position before any line
terminator?  (`.` in `IS_PURE_FUNCTION` does not match line terminators.) -/
def parenBeforeNewline : List Char → Bool
  | [] => false
  | c :: t =>
    if c = '(' then true
    else if c = '\n' || c = '\r' || c = ' ' || c = ' ' then false
    else parenBeforeNewline t

/-- `IS_PURE_FUNCTION` = `/function.*?\(/`: the text contains `function`
followed, on the same line, by `(`. -/
def isPureFunctionSrc : List Char → Bool
  | [] => false
  | c :: t =>
    ("function".data.isPrefixOf (c :: t) && parenBeforeNewline ((c :: t).drop 8))
      || isPureFunctionSrc t

/-- `IS_ARROW_FUNCTION` = `/.*?=>.*?/`: since both lazy dots may match the
empty string, the regexp tests exactly for an occurrence of `=>`. -/
def containsArrow : List Char → Bool
  | [] => false
  | c :: t => "=>".data.isPrefixOf (c :: t) || containsArrow t

/-- `serializedFn.substr(0, argsStartsAt).trim().split(" ")` filtered to
non-empty tokens. -/
def defTokensOf (s : String) : List String :=
  (s.trim.splitOn " ").filter (fun t => t ≠ "")

/-- `serializeFunc` (src/serialize.ts lines 185-226): obtain the function's
source text; throw for native functions; pass ordinary `function` and arrow
sources through; rewrite method shorthand into a function expression,
preserving `async` and the generator `*`. -/
def serializeFunc (src name : String) : Except SerErr String :=
  if hasNativeMarker src.data then .error (.nativeFunction name)
  else if isPureFunctionSrc src.data then .ok src
  else if containsArrow src.data then .ok src
  else
    match src.data.findIdx? (fun c => c = '(') with
    | none => .ok src
    | some argsStartsAt =>
      let defTokens := defTokensOf (String.mk (src.data.take argsStartsAt))
      let nonReserved := defTokens.filter (fun t => t ≠ "*" && t ≠ "async")
      if nonReserved.length > 0 then
        .ok ((if defTokens.contains "async" then "async " else "")
          ++ "function"
          ++ (if (String.join defTokens).data.contains '*' then "*" else "")
          ++ String.mk (src.data.drop argsStartsAt))
      else .ok src

-- Options (src/serialize.ts SerializeJSOptions) -------------------------------

/-- The options record of `serializeJS`.  `space` carries either a number of
spaces or an indent string, as in `JSON.stringify`; the source name of
`unsafeMode` is `unsafe`. -/
structure SerializeJSOptions where
  space : Option (Nat ⊕ String) := none
  isJSON : Bool := false
  unsafeMode : Bool := false
  ignoreFunction : Bool := false

/-- JavaScript truthiness of `options.space`, used by the
`options.isJSON && !options.space` fast path: `0` and `""` are falsy. -/
def spaceTruthy : Option (Nat ⊕ String) → Bool
  | none => false
  | some (.inl n) => n != 0
  | some (.inr s) => s != ""

/-- The `gap` computed by `JSON.stringify` from its `space` argument:
a number yields `min(space, 10)` spaces, a string its first ten characters. -/
def gapOf : Option (Nat ⊕ String) → String
  | none => ""
  | some (.inl n) => String.mk (List.replicate (min n 10) ' ')
  | some (.inr s) => String.mk (s.data.take 10)

-- Placeholder tables ----------------------------------------------------------

/-- The ten side tables of one `serializeJS` pass (src/serialize.ts lines
106-115).  Each entry holds the textual reconstruction of the pushed value;
the reconstruction is computed at push time, which is observationally the same
as the source's computing it inside the substitution callback, because pushes
happen in skeleton text order and every pushed placeholder occurs in the
skeleton. -/
structure Tables where
  functions : List String := []
  regexps : List String := []
  dates : List String := []
  maps : List String := []
  sets : List String := []
  arrays : List String := []
  undefs : List String := []
  infinities : List String := []
  bigInts : List String := []
  urls : List String := []
deriving DecidableEq

/-- The emptiness check of src/serialize.ts lines 261-274: when no placeholder
was produced, the escaped skeleton is returned as-is. -/
def Tables.isEmpty (t : Tables) : Bool :=
  t.functions.isEmpty && t.regexps.isEmpty && t.dates.isEmpty && t.maps.isEmpty
    && t.sets.isEmpty && t.arrays.isEmpty && t.undefs.isEmpty
    && t.infinities.isEmpty && t.bigInts.isEmpty && t.urls.isEmpty

/-- A placeholder token `@__<TAG>-<UID>-<INDEX>__@` (without the surrounding
JSON quotes, which the stringifier adds because the replacer returns the token
as a string value). -/
def placeholder (tag : Char) (uid : String) (idx : Nat) : String :=
  "@__" ++ String.mk [tag] ++ "-" ++ uid ++ "-" ++ toString idx ++ "__@"

-- The stringify pass ----------------------------------------------------------

/-- Effect of `deleteFunctions` on one array slot: with `ignoreFunction`,
deleting a function element leaves a hole.  (`deleteFunctions` mutates the
node in place before classification, so the sparse-array check and the
element traversal both see the mutated array; this definition is used for
both.) -/
def effElem (opts : SerializeJSOptions) : Option JSValue → Option JSValue
  | some v => if opts.ignoreFunction && isFunctionVal v then none else some v
  | none => none

/-- The fields of `Object.assign({length: arr.length}, arr)` in JS enumeration
order: integer keys ascending first, then `length`.  Holes contribute no
field. -/
def sparseFields (opts : SerializeJSOptions) (es : List (Option JSValue)) :
    List (String × JSValue) :=
  (es.enum.filterMap fun p => (effElem opts p.2).map (fun v => (toString p.1, v)))
    ++ [("length", .num (.int es.length))]

/-- `SerializeJSONObject`: wrap member strings in braces, with the `gap`-aware
layout of `JSON.stringify`. -/
def wrapBraces (gap ind : String) (ms : List String) : String :=
  if ms.isEmpty then "\x7b\x7d"
  else if gap = "" then "\x7b" ++ String.intercalate "," ms ++ "\x7d"
  else "\x7b\n" ++ ind ++ gap ++ String.intercalate (",\n" ++ ind ++ gap) ms
    ++ "\n" ++ ind ++ "\x7d"

/-- `SerializeJSONArray`: wrap element strings in brackets. -/
def wrapBrackets (gap ind : String) (ms : List String) : String :=
  if ms.isEmpty then "[]"
  else if gap = "" then "[" ++ String.intercalate "," ms ++ "]"
  else "[\n" ++ ind ++ gap ++ String.intercalate (",\n" ++ ind ++ gap) ms
    ++ "\n" ++ ind ++ "]"

/-- The replacer of src/serialize.ts lines 119-183, with the per-kind textual
reconstruction (lines 287-338) computed at push time.  Returns `some token`
when the value is replaced by a placeholder, `none` when it passes through to
the JSON core.  `rec` is the nested `serializeJS` call used by the
reconstructions (`fe` selects whether the falsy fast exit of line 125 is
present; the source has it). -/
def replacerPhase (fe : Bool) (rec : SerializeJSOptions → JSValue → Except SerErr String)
    (uid : String) (opts : SerializeJSOptions) (orig : JSValue) (tb : Tables) :
    Except SerErr (Option String × Tables) :=
  let conv := toJSONconv orig
  if fe && fastExitCond conv then .ok (none, tb)
  else
    match orig with
    | .regexp rsrc rflags => do
      let inner ← rec {} (.str rsrc)
      let recon := "new RegExp(" ++ inner ++ ", \"" ++ rflags ++ "\")"
      .ok (some (placeholder 'R' uid tb.regexps.length),
        { tb with regexps := tb.regexps ++ [recon] })
    | .date none => .error .rangeError
    | .date (some iso) =>
      let recon := "new Date(\"" ++ iso ++ "\")"
      .ok (some (placeholder 'D' uid tb.dates.length),
        { tb with dates := tb.dates ++ [recon] })
    | .jsMap es => do
      let inner ← rec opts (.arr (es.map fun p => some (.arr [some p.1, some p.2])))
      let recon := "new Map(" ++ inner ++ ")"
      .ok (some (placeholder 'M' uid tb.maps.length),
        { tb with maps := tb.maps ++ [recon] })
    | .jsSet es => do
      let inner ← rec opts (.arr (es.map some))
      let recon := "new Set(" ++ inner ++ ")"
      .ok (some (placeholder 'S' uid tb.sets.length),
        { tb with sets := tb.sets ++ [recon] })
    | .arr es =>
      if es.any (fun e => (effElem opts e).isNone) then do
        let inner ← rec opts (.obj (sparseFields opts es))
        let recon := "Array.prototype.slice.call(" ++ inner ++ ")"
        .ok (some (placeholder 'A' uid tb.arrays.length),
          { tb with arrays := tb.arrays ++ [recon] })
      else .ok (none, tb)
    | .url h => do
      let inner ← rec opts (.str h)
      let recon := "new URL(" ++ inner ++ ")"
      .ok (some (placeholder 'L' uid tb.urls.length),
        { tb with urls := tb.urls ++ [recon] })
    | .func fsrc fname => do
      let recon ← serializeFunc fsrc fname
      .ok (some (placeholder 'F' uid tb.functions.length),
        { tb with functions := tb.functions ++ [recon] })
    | .undef =>
      .ok (some (placeholder 'U' uid tb.undefs.length),
        { tb with undefs := tb.undefs ++ ["undefined"] })
    | .num .inf =>
      .ok (some (placeholder 'I' uid tb.infinities.length),
        { tb with infinities := tb.infinities ++ ["Infinity"] })
    | .num .negInf =>
      .ok (some (placeholder 'I' uid tb.infinities.length),
        { tb with infinities := tb.infinities ++ ["-Infinity"] })
    | .bigint i =>
      .ok (some (placeholder 'B' uid tb.bigInts.length),
        { tb with bigInts := tb.bigInts ++ ["BigInt(\"" ++ toString i ++ "\")"] })
    | _ => .ok (none, tb)

mutual

/-- `SerializeJSONProperty` for one node: apply the `toJSON` conversion, run
the replacer (when present), then serialize the resulting value with the JSON
core.  Returns `none` in place of a string when the property serializes to
nothing (`undefined` / function without replacer).  The `.date`/`.url` core
cases serialize the `toJSON` conversion (they are reached only without the
replacer). -/
def goVal (fe : Bool) (rec : SerializeJSOptions → JSValue → Except SerErr String)
    (uid : String) (opts : SerializeJSOptions) (useRep : Bool) (gap : String) :
    JSValue → String → Tables → Except SerErr (Option String × Tables)
  | orig, ind, tb => do
    let (repl, tb) ←
      if useRep then replacerPhase fe rec uid opts orig tb else .ok (none, tb)
    match repl with
    | some ph => .ok (some (jsonQuote ph), tb)
    | none =>
      match orig with
      | .str s => .ok (some (jsonQuote s), tb)
      | .num n => .ok (some (renderNum n), tb)
      | .bool b => .ok (some (if b then "true" else "false"), tb)
      | .null => .ok (some "null", tb)
      | .undef => .ok (none, tb)
      | .func _ _ => .ok (none, tb)
      | .bigint _ => .error .bigintUnsupported
      | .date none => .ok (some "null", tb)
      | .date (some s) => .ok (some (jsonQuote s), tb)
      | .url h => .ok (some (jsonQuote h), tb)
      | .regexp _ _ => .ok (some "\x7b\x7d", tb)
      | .jsMap _ => .ok (some "\x7b\x7d", tb)
      | .jsSet _ => .ok (some "\x7b\x7d", tb)
      | .obj fs => do
        let (ms, tb) ← goFields fe rec uid opts useRep gap fs (ind ++ gap) tb
        .ok (some (wrapBraces gap ind ms), tb)
      | .arr es => do
        let (ms, tb) ← goElems fe rec uid opts useRep gap es (ind ++ gap) tb
        .ok (some (wrapBrackets gap ind ms), tb)

/-- Serialize the members of an object, in property order.  With
`ignoreFunction`, function-valued fields were deleted by `deleteFunctions`
before traversal, modelled here by skipping them.  Members whose value
serializes to nothing are omitted. -/
def goFields (fe : Bool) (rec : SerializeJSOptions → JSValue → Except SerErr String)
    (uid : String) (opts : SerializeJSOptions) (useRep : Bool) (gap : String) :
    List (String × JSValue) → String → Tables → Except SerErr (List String × Tables)
  | [], _, tb => .ok ([], tb)
  | (k, v) :: t, ind, tb =>
    if opts.ignoreFunction && isFunctionVal v then
      goFields fe rec uid opts useRep gap t ind tb
    else do
      let (r, tb) ← goVal fe rec uid opts useRep gap v ind tb
      let (ms, tb) ← goFields fe rec uid opts useRep gap t ind tb
      match r with
      | none => .ok (ms, tb)
      | some out =>
        .ok ((jsonQuote k ++ (if gap = "" then ":" else ": ") ++ out) :: ms, tb)

/-- Serialize the elements of a (dense, with the replacer) array, in index
order.  A hole — or, with `ignoreFunction`, a deleted function element — is
the property value `undefined`: with the replacer it becomes a `U`
placeholder, without it the element renders as `null`. -/
def goElems (fe : Bool) (rec : SerializeJSOptions → JSValue → Except SerErr String)
    (uid : String) (opts : SerializeJSOptions) (useRep : Bool) (gap : String) :
    List (Option JSValue) → String → Tables → Except SerErr (List String × Tables)
  | [], _, tb => .ok ([], tb)
  | some v :: t, ind, tb =>
    if opts.ignoreFunction && isFunctionVal v then
      if useRep then do
        let ph := placeholder 'U' uid tb.undefs.length
        let tb := { tb with undefs := tb.undefs ++ ["undefined"] }
        let (ms, tb) ← goElems fe rec uid opts useRep gap t ind tb
        .ok ((jsonQuote ph) :: ms, tb)
      else do
        let (ms, tb) ← goElems fe rec uid opts useRep gap t ind tb
        .ok ("null" :: ms, tb)
    else do
      let (r, tb) ← goVal fe rec uid opts useRep gap v ind tb
      let (ms, tb) ← goElems fe rec uid opts useRep gap t ind tb
      .ok ((r.getD "null") :: ms, tb)
  | none :: t, ind, tb =>
    if useRep then do
      let ph := placeholder 'U' uid tb.undefs.length
      let tb := { tb with undefs := tb.undefs ++ ["undefined"] }
      let (ms, tb) ← goElems fe rec uid opts useRep gap t ind tb
      .ok ((jsonQuote ph) :: ms, tb)
    else do
      let (ms, tb) ← goElems fe rec uid opts useRep gap t ind tb
      .ok ("null" :: ms, tb)

end

/-- The JSON-core dispatch of `goVal` (everything after the replacer phase),
restated as a standalone function; `goVal_unfold` below proves it agrees with
the mutual definition. -/
def goValCore (fe : Bool) (rec : SerializeJSOptions → JSValue → Except SerErr String)
    (uid : String) (opts : SerializeJSOptions) (useRep : Bool) (gap ind : String)
    (orig : JSValue) (tb : Tables) : Except SerErr (Option String × Tables) :=
  match orig with
  | .str s => .ok (some (jsonQuote s), tb)
  | .num n => .ok (some (renderNum n), tb)
  | .bool b => .ok (some (if b then "true" else "false"), tb)
  | .null => .ok (some "null", tb)
  | .undef => .ok (none, tb)
  | .func _ _ => .ok (none, tb)
  | .bigint _ => .error .bigintUnsupported
  | .date none => .ok (some "null", tb)
  | .date (some s) => .ok (some (jsonQuote s), tb)
  | .url h => .ok (some (jsonQuote h), tb)
  | .regexp _ _ => .ok (some "\x7b\x7d", tb)
  | .jsMap _ => .ok (some "\x7b\x7d", tb)
  | .jsSet _ => .ok (some "\x7b\x7d", tb)
  | .obj fs => do
    let (ms, tb) ← goFields fe rec uid opts useRep gap fs (ind ++ gap) tb
    .ok (some (wrapBraces gap ind ms), tb)
  | .arr es => do
    let (ms, tb) ← goElems fe rec uid opts useRep gap es (ind ++ gap) tb
    .ok (some (wrapBrackets gap ind ms), tb)

-- Placeholder substitution (src/serialize.ts lines 279-339) -------------------

def tagChars : List Char := ['F', 'R', 'D', 'M', 'S', 'A', 'U', 'I', 'B', 'L']

/-- Try to match the quoted placeholder pattern
`"@__(F|R|D|M|S|A|U|I|B|L)-<UID>-(\d+)__@"` at the head of `cs`.  On success
returns the tag, the digit run, the matched span, and the remainder. -/
def tryQuoted (uid : List Char) (cs : List Char) :
    Option (Char × List Char × List Char × List Char) :=
  match cs with
  | '"' :: '@' :: '_' :: '_' :: tag :: '-' :: r1 =>
    if tagChars.contains tag then
      if uid.isPrefixOf r1 then
        match r1.drop uid.length with
        | '-' :: r2 =>
          let ds := r2.takeWhile Char.isDigit
          if ds.isEmpty then none
          else
            match r2.dropWhile Char.isDigit with
            | '_' :: '_' :: '@' :: '"' :: r3 =>
              some (tag, ds,
                '"' :: '@' :: '_' :: '_' :: tag :: '-'
                  :: (uid ++ '-' :: (ds ++ ['_', '_', '@', '"'])), r3)
            | _ => none
        | _ => none
      else none
    else none
  | _ => none

/-- Try to match `PLACE_HOLDER_REGEXP` = `(\\)?"@__…__@"` at the head of `cs`:
an optional single backslash capture, then the quoted token.  The returned
span includes the backslash when present. -/
def tryMatchPH (uid : List Char) (cs : List Char) :
    Option (Bool × Char × List Char × List Char × List Char) :=
  match cs with
  | '\\' :: r =>
    match tryQuoted uid r with
    | some (tag, ds, span, rest) => some (true, tag, ds, '\\' :: span, rest)
    | none => none
  | _ =>
    match tryQuoted uid cs with
    | some (tag, ds, span, rest) => some (false, tag, ds, span, rest)
    | none => none

/-- `str.toNat`-style digit-run value. -/
def digitsToNat (ds : List Char) : Nat :=
  ds.foldl (fun acc c => acc * 10 + (c.toNat - 48)) 0

/-- An array index denoted by the captured digit run: digit strings with a
leading zero (other than `"0"` itself) are not canonical array indices, so the
JS element lookup misses. -/
def parseIndex : List Char → Option Nat
  | [] => none
  | ['0'] => some 0
  | '0' :: _ => none
  | ds => some (digitsToNat ds)

/-- The table the substitution callback indexes for each tag. -/
def tableFor (tb : Tables) : Char → List String
  | 'F' => tb.functions
  | 'R' => tb.regexps
  | 'D' => tb.dates
  | 'M' => tb.maps
  | 'S' => tb.sets
  | 'A' => tb.arrays
  | 'U' => tb.undefs
  | 'I' => tb.infinities
  | 'B' => tb.bigInts
  | 'L' => tb.urls
  | _ => []

/-- What the substitution callback produces for an out-of-range index
(reachable only for a user string that collides with the session UID): the
`I` callback returns `undefined`, coerced to the text `undefined`; the `B`
callback concatenates `undefined` into its text; every other tag dereferences
the missing entry and throws a `TypeError`. -/
def outOfRange : Char → Except SerErr String
  | 'I' => .ok "undefined"
  | 'B' => .ok "BigInt(\"undefined\")"
  | t => .error (.lookupFailed t)

/-- The kind-specific replacement text for one unguarded match: the `U`
callback returns `undefined` without consulting its index; the others index
their table. -/
def reconFor (tb : Tables) (tag : Char) (ds : List Char) : Except SerErr String :=
  if tag = 'U' then .ok "undefined"
  else
    match parseIndex ds with
    | some n =>
      match (tableFor tb tag).get? n with
      | some s => .ok s
      | none => outOfRange tag
    | none => outOfRange tag

/-- The replacement scan of `str.replace(PLACE_HOLDER_REGEXP, callback)`
(src/serialize.ts line 279): find matches left to right; a match whose
backslash group is present is returned unchanged (lines 283-285); otherwise it
is replaced by the kind-specific reconstruction; scanning resumes after the
match.  The inner length test only serves termination: a match always
consumes at least one character, so the fallback branch is unreachable. -/
def substPHChars (uid : List Char) (tb : Tables) : List Char → Except SerErr (List Char)
  | [] => .ok []
  | c :: cs =>
    match tryMatchPH uid (c :: cs) with
    | some (guarded, tag, ds, span, rest) =>
      if _hlt : rest.length < cs.length + 1 then
        if guarded then (substPHChars uid tb rest).map (fun out => span ++ out)
        else do
          let r ← reconFor tb tag ds
          (substPHChars uid tb rest).map (fun out => r.data ++ out)
      else (substPHChars uid tb cs).map (fun out => c :: out)
    | none => (substPHChars uid tb cs).map (fun out => c :: out)
termination_by l => l.length
decreasing_by
  all_goals simp only [List.length_cons]
  all_goals omega

/-- String-level wrapper for the placeholder substitution pass. -/
def substPlaceholders (uid : String) (tb : Tables) (s : String) : Except SerErr String :=
  (substPHChars uid.data tb s.data).map String.mk

-- serializeJS (src/serialize.ts lines 98-340) ---------------------------------

/-- The body of `serializeJS` (src/serialize.ts lines 98-340), parameterized
by the nested serializer `rec` the reconstruction texts call.  Steps, in
source order: the `ignoreFunction` root check, the root-`undefined` check
(`String(obj)` is the text `undefined`), the stringify pass (with the
replacer unless `isJSON`, and with `space` ignored on the
`isJSON && !space` fast path), the `String(str)` fallback when stringify
produced nothing, the unsafe-character escape unless `unsafe`, the
empty-tables fast path, and the placeholder substitution. -/
def serializeJSBody (fe : Bool)
    (rec : SerializeJSOptions → JSValue → Except SerErr String)
    (uid : String) (opts : SerializeJSOptions) (obj0 : JSValue) :
    Except SerErr String :=
  let obj1 := if opts.ignoreFunction && isFunctionVal obj0 then .undef else obj0
  if isUndefVal obj1 then .ok "undefined"
  else
    let useRep := !opts.isJSON
    let gap := if opts.isJSON && !(spaceTruthy opts.space) then "" else gapOf opts.space
    do
      let (r, tb) ← goVal fe rec uid opts useRep gap obj1 "" {}
      match r with
      | none => .ok "undefined"
      | some str =>
        let str := if SerializeJSOptions.unsafeMode opts then str else escapeUnsafe str
        if Tables.isEmpty tb then .ok str
        else substPlaceholders uid tb str

/-- The fuelled serializer: one `serializeJSBody` step per unit of fuel; the
fuel is spent only by the nested `serializeJS` calls made from the
reconstruction texts, and `serializeJS` below enters with fuel `msize v + 1`,
which `serializeJSF_irrel` shows is always sufficient. -/
def serializeJSF (fe : Bool) : Nat → String → SerializeJSOptions → JSValue →
    Except SerErr String
  | 0, _, _, _ => .error .outOfFuel
  | Nat.succ f, uid, opts, obj0 =>
    serializeJSBody fe (fun o v => serializeJSF fe f uid o v) uid opts obj0

/-- `serializeJS(obj, options)` — the exported serializer of
src/serialize.ts, as imported and used by `main.ts`. -/
def serializeJS (uid : String) (opts : SerializeJSOptions) (v : JSValue) :
    Except SerErr String :=
  serializeJSF true (msize v + 1) uid opts v

/-- The same serializer with the falsy fast exit (src/serialize.ts line 125)
removed, so that every value reaches the special-kind classification.  This is
the hypothetical variant the spec compares against when it calls the fast exit
"an optimization that must not change externally observable output". -/
def serializeJSNoFastExit (uid : String) (opts : SerializeJSOptions) (v : JSValue) :
    Except SerErr String :=
  serializeJSF false (msize v + 1) uid opts v


-- Values on which the falsy fast exit is invisible ----------------------------

mutual

/-- Values whose `toJSON` conversion is never falsy at a specially-classified
node: the only special kinds with a falsy conversion are invalid dates
(`toJSON` is `null`), valid dates whose ISO text is empty, and URLs whose
`href` is empty.  A real `Date`/`URL` never produces the latter two, and an
invalid date cannot be produced by decode.  `serWF` rules all three out,
everywhere inside the value. -/
def serWF : JSValue → Bool
  | .str _ => true
  | .num _ => true
  | .bool _ => true
  | .null => true
  | .undef => true
  | .bigint _ => true
  | .date none => false
  | .date (some iso) => iso != ""
  | .regexp _ _ => true
  | .url h => h != ""
  | .func _ _ => true
  | .obj fs => serWFFields fs
  | .arr es => serWFElems es
  | .jsMap es => serWFPairs es
  | .jsSet es => serWFList es

def serWFFields : List (String × JSValue) → Bool
  | [] => true
  | (_, v) :: t => serWF v && serWFFields t

def serWFElems : List (Option JSValue) → Bool
  | [] => true
  | e :: t => serWFOpt e && serWFElems t

def serWFOpt : Option JSValue → Bool
  | none => true
  | some v => serWF v

def serWFPairs : List (JSValue × JSValue) → Bool
  | [] => true
  | (k, v) :: t => serWF k && serWF v && serWFPairs t

def serWFList : List JSValue → Bool
  | [] => true
  | v :: t => serWF v && serWFList t

end

/-- Characters that pass both the JSON string quoting and the unsafe-character
escape unchanged, and are neither a quote nor a backslash, so the decoder
reads them back verbatim.  Every character a placeholder token is built from
(`@`, `_`, `-`, letters, digits) is plain. -/
def plainChar (c : Char) : Bool :=
  !(c == '"') && !(c == '\\') && !(c.val < 0x20) && !(c == '<') && !(c == '>')
    && !(c == '/') && !(c == ' ') && !(c == ' ')

-- Decoding (spec 4.2) ---------------------------------------------------------

/-- One escape character of a string literal (the JSON escapes, which are also
valid JavaScript string escapes — all that `jsonQuote` produces besides
`\uXXXX`). -/
def unescapeChar (c : Char) : Option Char :=
  if c = '"' then some '"'
  else if c = '\\' then some '\\'
  else if c = '/' then some '/'
  else if c = 'b' then some '\x08'
  else if c = 'f' then some '\x0c'
  else if c = 'n' then some '\n'
  else if c = 'r' then some '\r'
  else if c = 't' then some '\t'
  else none

def hexVal (c : Char) : Option Nat :=
  if '0' ≤ c && c ≤ '9' then some (c.toNat - 48)
  else if 'a' ≤ c && c ≤ 'f' then some (c.toNat - 87)
  else if 'A' ≤ c && c ≤ 'F' then some (c.toNat - 55)
  else none

/-- Parse the body of a double-quoted string literal up to its closing quote;
returns the content and the remainder after the quote. -/
def parseStrBody : List Char → Option (List Char × List Char)
  | [] => none
  | '"' :: rest => some ([], rest)
  | '\\' :: 'u' :: h1 :: h2 :: h3 :: h4 :: rest => do
    let n1 ← hexVal h1
    let n2 ← hexVal h2
    let n3 ← hexVal h3
    let n4 ← hexVal h4
    let n := ((n1 * 16 + n2) * 16 + n3) * 16 + n4
    let (s, r) ← parseStrBody rest
    if h : n.isValidChar then some (Char.ofNatAux n h :: s, r) else none
  | '\\' :: e :: rest => do
    let c ← unescapeChar e
    let (s, r) ← parseStrBody rest
    some (c :: s, r)
  | c :: rest => do
    let (s, r) ← parseStrBody rest
    some (c :: s, r)

/-- Modelled from the spec: §4.2 says `decode(text)` evaluates the persisted
text as an expression — `eval("(" + data + ")")` in `loadFromString`
(main.ts lines 377-380); the `eval` builtin itself is host code absent from
`src/`.  Following §9, it is modelled as a recursive-descent evaluator for the
literal fragment of the JSON-superset grammar that the claims exercise:
`null`, `true`, `false`, `undefined`, integer numerals, and double-quoted
string literals.  Texts outside the fragment evaluate to `none` (the model of
a `DecodeError`). -/
def jsEval (text : String) : Option JSValue :=
  match text.data with
  | '"' :: rest =>
    match parseStrBody rest with
    | some (content, []) => some (.str (String.mk content))
    | _ => none
  | cs =>
    if cs = "null".data then some .null
    else if cs = "true".data then some (.bool true)
    else if cs = "false".data then some (.bool false)
    else if cs = "undefined".data then some .undef
    else if cs ≠ [] && cs.all Char.isDigit then some (.num (.int (digitsToNat cs)))
    else
      match cs with
      | '-' :: ds =>
        if ds ≠ [] && ds.all Char.isDigit then
          some (.num (.int (-(digitsToNat ds : Int))))
        else none
      | _ => none


-- The persistence layer (main.ts) ---------------------------------------------

/-- The state visible to the persistence core: the two persistence-related
plugin settings (`PKVSPluginSettings.lazyPersistence` / `.persistedData`), the
in-memory mapping `PersistentStore.data`, the
`PersistentStoreGlobal.lazyPersistenceOverride` field, and a count of the
writes performed by the settings-persistence collaborator
(`PKVSPlugin.saveSettings` / Obsidian's `saveData`).  Keys are modelled as
strings (the `PropertyKey` type also admits symbols; every claim uses string
keys). -/
structure PluginState where
  lazyPersistence : Bool
  persistedData : String
  data : List (String × JSValue)
  lazyPersistenceOverride : Option Bool
  writes : Nat

/-- Own-property lookup on the plain object `this.data`. -/
def lookupOwn : List (String × JSValue) → String → Option JSValue
  | [], _ => none
  | (k, v) :: t, key => if k = key then some v else lookupOwn t key

/-- The properties the plain object produced by `loadFromString` (an object
literal evaluated by `eval`) inherits from `Object.prototype`: the standard
prototype methods, each a native function.  A property read `this.data[key]`
falls back to these when `key` is not an own property; `hasOwnProperty` does
not. -/
def objectProto (key : String) : Option JSValue :=
  if key ∈ (["constructor", "hasOwnProperty", "isPrototypeOf",
      "propertyIsEnumerable", "toLocaleString", "toString", "valueOf"] : List String)
  then some (.func ("function " ++ key ++ "() \x7b [native code] \x7d") key)
  else none

/-- The property read `this.data[key]`: own property first, then the
prototype chain, then `undefined`. -/
def readProp (data : List (String × JSValue)) (key : String) : JSValue :=
  match lookupOwn data key with
  | some v => v
  | none =>
    match objectProto key with
    | some v => v
    | none => JSValue.undef

/-- The property write `this.data[key] = value`: overwrite an existing own
property in place, otherwise append a new one. -/
def setOwn : List (String × JSValue) → String → JSValue → List (String × JSValue)
  | [], key, v => [(key, v)]
  | (k, w) :: t, key, v => if k = key then (k, v) :: t else (k, w) :: setOwn t key v

/-- `delete this.data[key]`: remove the own property, if any. -/
def eraseOwn : List (String × JSValue) → String → List (String × JSValue)
  | [], _ => []
  | (k, w) :: t, key => if k = key then t else (k, w) :: eraseOwn t key

namespace PersistentStore

/-- `PersistentStore.existsMember` (main.ts lines 396-398):
`this.data.hasOwnProperty(key)` — an own-property check only. -/
def existsMember (s : PluginState) (key : String) : Bool :=
  (lookupOwn s.data key).isSome

/-- `PersistentStore.deleteMember` (main.ts lines 400-404): read the old value
(a property read, through the prototype), delete the own property, return the
old value. -/
def deleteMember (s : PluginState) (key : String) : JSValue × PluginState :=
  (readProp s.data key, { s with data := eraseOwn s.data key })

/-- `PersistentStore.storeMember` (main.ts lines 406-410): read the old value,
overwrite, return the old value. -/
def storeMember (s : PluginState) (key : String) (v : JSValue) :
    JSValue × PluginState :=
  (readProp s.data key, { s with data := setOwn s.data key v })

/-- `PersistentStore.loadMember` (main.ts lines 412-414): `this.data[key]`. -/
def loadMember (s : PluginState) (key : String) : JSValue :=
  readProp s.data key

/-- `PersistentStore.storeToString` (main.ts lines 382-384):
`serializeJS(this.data)` with no options. -/
def storeToString (uid : String) (s : PluginState) : Except SerErr String :=
  serializeJS uid {} (.obj s.data)

/-- `PersistentStore.storeData` (main.ts lines 391-394): serialize the data
into `settings.persistedData`, then `saveSettings()` (one collaborator
write).  If serialization throws, neither assignment nor write happens and the
error propagates; the paired state is the state after the call either way. -/
def storeData (uid : String) (s : PluginState) : Except SerErr Unit × PluginState :=
  match storeToString uid s with
  | .ok t => (.ok (), { s with persistedData := t, writes := s.writes + 1 })
  | .error e => (.error e, s)

end PersistentStore

/-- `PKVSPlugin.eagerPersistenceEnabled` (main.ts lines 164-166):
`!this.settings.lazyPersistence`. -/
def eagerPersistenceEnabled (s : PluginState) : Bool :=
  !s.lazyPersistence

namespace PersistentStoreGlobal

/-- JavaScript truthiness of the `boolean | undefined` field
`lazyPersistenceOverride`: `undefined` and `false` are falsy. -/
def overrideTruthy : Option Bool → Bool
  | none => false
  | some b => b

/-- `PersistentStoreGlobal.persistIfEnabled` (main.ts lines 430-436):
`if (!this.lazyPersistenceOverride) { if (eagerPersistenceEnabled()) storeData() }`. -/
def persistIfEnabled (uid : String) (s : PluginState) :
    Except SerErr Unit × PluginState :=
  if !(overrideTruthy s.lazyPersistenceOverride) then
    if eagerPersistenceEnabled s then PersistentStore.storeData uid s
    else (.ok (), s)
  else (.ok (), s)

/-- `PersistentStoreGlobal.load` (main.ts lines 440-442). -/
def load (s : PluginState) (key : String) : JSValue × PluginState :=
  (PersistentStore.loadMember s key, s)

/-- `PersistentStoreGlobal.store` (main.ts lines 448-452): mutate first, then
`persistIfEnabled`, then return the previous value.  A serialization error
in the flush propagates after the in-memory mutation has already happened. -/
def store (uid : String) (s : PluginState) (key : String) (v : JSValue) :
    Except SerErr JSValue × PluginState :=
  let (prev, s1) := PersistentStore.storeMember s key v
  match persistIfEnabled uid s1 with
  | (.ok _, s2) => (.ok prev, s2)
  | (.error e, s2) => (.error e, s2)

/-- `PersistentStoreGlobal.delete` (main.ts lines 458-462). -/
def delete (uid : String) (s : PluginState) (key : String) :
    Except SerErr JSValue × PluginState :=
  let (prev, s1) := PersistentStore.deleteMember s key
  match persistIfEnabled uid s1 with
  | (.ok _, s2) => (.ok prev, s2)
  | (.error e, s2) => (.error e, s2)

/-- `PersistentStoreGlobal.exists` (main.ts lines 465-467); named `existsKey`
here because `exists` collides with Lean syntax. -/
def existsKey (s : PluginState) (key : String) : Bool × PluginState :=
  (PersistentStore.existsMember s key, s)

/-- `PersistentStoreGlobal.persist` (main.ts lines 471-473): unconditional
`storeData()`. -/
def persist (uid : String) (s : PluginState) : Except SerErr Unit × PluginState :=
  PersistentStore.storeData uid s

/-- `PersistentStoreGlobal.setLazyPersistance` (main.ts lines 476-478). -/
def setLazyPersistance (s : PluginState) : PluginState :=
  { s with lazyPersistenceOverride := some true }

/-- `PersistentStoreGlobal.setEagerPersistence` (main.ts lines 481-483). -/
def setEagerPersistence (s : PluginState) : PluginState :=
  { s with lazyPersistenceOverride := some false }

/-- `PersistentStoreGlobal.disablePersistenceOverride` (main.ts lines 486-488). -/
def disablePersistenceOverride (s : PluginState) : PluginState :=
  { s with lazyPersistenceOverride := none }

end PersistentStoreGlobal

-- Association-list lemmas ------------------------------------------------------

theorem lookupOwn_setOwn_self (d : List (String × JSValue)) (k : String) (v : JSValue) :
    lookupOwn (setOwn d k v) k = some v := by
  induction d with
  | nil => simp [setOwn, lookupOwn]
  | cons p t ih =>
    obtain ⟨k0, w⟩ := p
    by_cases h : k0 = k <;> simp [setOwn, lookupOwn, h, ih]

theorem setOwn_setOwn_self (d : List (String × JSValue)) (k : String) (v w : JSValue) :
    setOwn (setOwn d k v) k w = setOwn d k w := by
  induction d with
  | nil => simp [setOwn]
  | cons p t ih =>
    obtain ⟨k0, u⟩ := p
    by_cases h : k0 = k <;> simp [setOwn, h, ih]

theorem setOwn_of_lookup_none (d : List (String × JSValue)) (k : String) (v : JSValue)
    (h : lookupOwn d k = none) : setOwn d k v = d ++ [(k, v)] := by
  induction d with
  | nil => simp [setOwn]
  | cons p t ih =>
    obtain ⟨k0, u⟩ := p
    by_cases hk : k0 = k
    · simp [lookupOwn, hk] at h
    · simp [lookupOwn, hk] at h
      simp [setOwn, hk, ih h]

theorem eraseOwn_setOwn_of_none (d : List (String × JSValue)) (k : String) (v : JSValue)
    (h : lookupOwn d k = none) : eraseOwn (setOwn d k v) k = d := by
  induction d with
  | nil => simp [setOwn, eraseOwn]
  | cons p t ih =>
    obtain ⟨k0, u⟩ := p
    by_cases hk : k0 = k
    · simp [lookupOwn, hk] at h
    · simp [lookupOwn, hk] at h
      simp [setOwn, eraseOwn, hk, ih h]

theorem readProp_setOwn_self (d : List (String × JSValue)) (k : String) (v : JSValue) :
    readProp (setOwn d k v) k = v := by
  simp [readProp, lookupOwn_setOwn_self]

theorem objectProto_k : objectProto "k" = none := rfl

theorem readProp_k_of_none (d : List (String × JSValue))
    (h : lookupOwn d "k" = none) : readProp d "k" = .undef := by
  simp [readProp, h, objectProto_k]

-- Measure lemmas ---------------------------------------------------------------

theorem msize_pos (v : JSValue) : 1 ≤ msize v := by
  cases v <;> simp [msize] <;> omega

theorem msizeFields_append (a b : List (String × JSValue)) :
    msizeFields (a ++ b) = msizeFields a + msizeFields b := by
  induction a with
  | nil => simp [msizeFields]
  | cons p t ih =>
    obtain ⟨k, v⟩ := p
    simp [msizeFields, ih]
    omega

theorem msize_mapPairs (es : List (JSValue × JSValue)) :
    msize (.arr (es.map fun p => some (.arr [some p.1, some p.2])))
      < msize (.jsMap es) := by
  simp only [msize]
  have : msizeElems (es.map fun p => some (.arr [some p.1, some p.2]))
      < 2 + msizePairs es := by
    induction es with
    | nil => simp [msizeElems, msizePairs]
    | cons p t ih =>
      obtain ⟨k, v⟩ := p
      simp [msizeElems, msizePairs, msizeOpt, msize] at *
      omega
  omega

theorem msize_mapSome (es : List JSValue) :
    msize (.arr (es.map some)) < msize (.jsSet es) := by
  simp only [msize]
  have : msizeElems (es.map some) < 2 + msizeList es := by
    induction es with
    | nil => simp [msizeElems, msizeList]
    | cons v t ih =>
      simp [msizeElems, msizeList, msizeOpt] at *
      omega
  omega

theorem effElem_some (opts : SerializeJSOptions) (e : Option JSValue) (v : JSValue)
    (h : effElem opts e = some v) : e = some v := by
  cases e with
  | none => simp [effElem] at h
  | some w =>
    simp only [effElem] at h
    split at h
    · cases h
    · cases h
      rfl

theorem msizeFields_sparse_le (opts : SerializeJSOptions) (es : List (Option JSValue)) :
    ∀ i : Nat,
      msizeFields ((List.enumFrom i es).filterMap
          fun p => (effElem opts p.2).map (fun v => (toString p.1, v)))
        ≤ msizeElems es := by
  induction es with
  | nil => intro i; simp [msizeFields, msizeElems]
  | cons e t ih =>
    intro i
    rw [List.enumFrom_cons, List.filterMap_cons]
    cases heff : effElem opts e with
    | none =>
      simp only [heff, Option.map_none]
      calc msizeFields ((List.enumFrom (i + 1) t).filterMap _)
          ≤ msizeElems t := ih (i + 1)
        _ ≤ msizeElems (e :: t) := by simp only [msizeElems]; omega
    | some v =>
      have he : e = some v := effElem_some opts e v heff
      subst he
      simp only [heff, Option.map_some]
      have := ih (i + 1)
      simp [msizeFields, msizeElems, msizeOpt] at *
      omega

theorem msizeFields_sparse_lt (opts : SerializeJSOptions) (es : List (Option JSValue))
    (h : es.any (fun e => (effElem opts e).isNone) = true) :
    ∀ i : Nat,
      msizeFields ((List.enumFrom i es).filterMap
          fun p => (effElem opts p.2).map (fun v => (toString p.1, v))) + 6
        ≤ msizeElems es := by
  induction es with
  | nil => simp at h
  | cons e t ih =>
    intro i
    rw [List.enumFrom_cons, List.filterMap_cons]
    cases heff : effElem opts e with
    | none =>
      simp only [heff, Option.map_none]
      have := msizeFields_sparse_le opts t (i + 1)
      simp [msizeElems] at *
      omega
    | some v =>
      have he : e = some v := effElem_some opts e v heff
      subst he
      have ht : t.any (fun e => (effElem opts e).isNone) = true := by
        simp only [List.any_cons, heff] at h
        simpa using h
      simp only [heff, Option.map_some]
      have := ih ht (i + 1)
      simp [msizeFields, msizeElems, msizeOpt] at *
      omega

theorem msize_sparseObj (opts : SerializeJSOptions) (es : List (Option JSValue))
    (h : es.any (fun e => (effElem opts e).isNone) = true) :
    msize (.obj (sparseFields opts es)) < msize (.arr es) := by
  simp only [msize, sparseFields, msizeFields_append]
  have := msizeFields_sparse_lt opts es h 0
  have henum : es.enum = List.enumFrom 0 es := List.enum_eq_enumFrom
  rw [henum]
  simp [msizeFields, msize] at *
  omega

theorem msize_str_lt_regexp (s rsrc rflags : String) :
    msize (.str s) < msize (.regexp rsrc rflags) := by
  simp [msize]

theorem msize_str_lt_url (s h : String) :
    msize (.str s) < msize (.url h) := by
  simp [msize]

-- Congruence of the stringify pass in its nested-serializer argument ----------

theorem exbind_congr {ε α β : Type} (x : Except ε α) (k1 k2 : α → Except ε β)
    (h : ∀ a, x = .ok a → k1 a = k2 a) : (x >>= k1) = (x >>= k2) := by
  cases x with
  | error e => rfl
  | ok a => exact h a rfl

/-- The replacer only invokes the nested serializer on values strictly smaller
(in `msize`) than the value being replaced, so two nested serializers that
agree below `msize orig` are interchangeable. -/
theorem replacerPhase_congr (fe : Bool)
    (rec1 rec2 : SerializeJSOptions → JSValue → Except SerErr String)
    (uid : String) (opts : SerializeJSOptions) (orig : JSValue) (tb : Tables)
    (hr : ∀ o w, msize w < msize orig → rec1 o w = rec2 o w) :
    replacerPhase fe rec1 uid opts orig tb
      = replacerPhase fe rec2 uid opts orig tb := by
  cases orig with
  | regexp rsrc rflags =>
    simp only [replacerPhase]
    rw [hr {} (.str rsrc) (msize_str_lt_regexp rsrc rsrc rflags)]
  | url h =>
    simp only [replacerPhase]
    rw [hr opts (.str h) (msize_str_lt_url h h)]
  | jsMap es =>
    simp only [replacerPhase]
    rw [hr opts (.arr (es.map fun p => some (.arr [some p.1, some p.2])))
      (msize_mapPairs es)]
  | jsSet es =>
    simp only [replacerPhase]
    rw [hr opts (.arr (es.map some)) (msize_mapSome es)]
  | arr es =>
    simp only [replacerPhase]
    split
    · rfl
    · split
      case isTrue hsp => rw [hr opts (.obj (sparseFields opts es)) (msize_sparseObj opts es hsp)]
      case isFalse => rfl
  | num n => cases n <;> rfl
  | date iso => cases iso <;> rfl
  | _ => rfl

/-- Hand-proved one-step unfolding of `goVal` (the automatically generated
equational lemmas fail for this mutual definition). -/
theorem goVal_unfold (fe : Bool)
    (rec : SerializeJSOptions → JSValue → Except SerErr String)
    (uid : String) (opts : SerializeJSOptions) (useRep : Bool) (gap : String)
    (orig : JSValue) (ind : String) (tb : Tables) :
    goVal fe rec uid opts useRep gap orig ind tb = (do
      let (repl, tb) ←
        if useRep then replacerPhase fe rec uid opts orig tb else .ok (none, tb)
      match repl with
      | some ph => .ok (some (jsonQuote ph), tb)
      | none => goValCore fe rec uid opts useRep gap ind orig tb) := by
  cases orig with
  | num n => cases n <;> rfl
  | date iso => cases iso <;> rfl
  | _ => rfl

/-- Hand-proved one-step unfolding of `goFields` on a cons cell. -/
theorem goFields_cons_unfold (fe : Bool)
    (rec : SerializeJSOptions → JSValue → Except SerErr String)
    (uid : String) (opts : SerializeJSOptions) (useRep : Bool) (gap : String)
    (k : String) (v : JSValue) (t : List (String × JSValue))
    (ind : String) (tb : Tables) :
    goFields fe rec uid opts useRep gap ((k, v) :: t) ind tb =
      (if opts.ignoreFunction && isFunctionVal v then
        goFields fe rec uid opts useRep gap t ind tb
      else do
        let (r, tb) ← goVal fe rec uid opts useRep gap v ind tb
        let (ms, tb) ← goFields fe rec uid opts useRep gap t ind tb
        match r with
        | none => .ok (ms, tb)
        | some out =>
          .ok ((jsonQuote k ++ (if gap = "" then ":" else ": ") ++ out) :: ms, tb)) :=
  rfl

/-- Hand-proved one-step unfolding of `goElems` on a present element. -/
theorem goElems_some_unfold (fe : Bool)
    (rec : SerializeJSOptions → JSValue → Except SerErr String)
    (uid : String) (opts : SerializeJSOptions) (useRep : Bool) (gap : String)
    (v : JSValue) (t : List (Option JSValue)) (ind : String) (tb : Tables) :
    goElems fe rec uid opts useRep gap (some v :: t) ind tb =
      (if opts.ignoreFunction && isFunctionVal v then
        if useRep then do
          let ph := placeholder 'U' uid tb.undefs.length
          let tb := { tb with undefs := tb.undefs ++ ["undefined"] }
          let (ms, tb) ← goElems fe rec uid opts useRep gap t ind tb
          .ok ((jsonQuote ph) :: ms, tb)
        else do
          let (ms, tb) ← goElems fe rec uid opts useRep gap t ind tb
          .ok ("null" :: ms, tb)
      else do
        let (r, tb) ← goVal fe rec uid opts useRep gap v ind tb
        let (ms, tb) ← goElems fe rec uid opts useRep gap t ind tb
        .ok ((r.getD "null") :: ms, tb)) :=
  rfl

/-- Hand-proved one-step unfolding of `goElems` on a hole. -/
theorem goElems_none_unfold (fe : Bool)
    (rec : SerializeJSOptions → JSValue → Except SerErr String)
    (uid : String) (opts : SerializeJSOptions) (useRep : Bool) (gap : String)
    (t : List (Option JSValue)) (ind : String) (tb : Tables) :
    goElems fe rec uid opts useRep gap (none :: t) ind tb =
      (if useRep then do
        let ph := placeholder 'U' uid tb.undefs.length
        let tb := { tb with undefs := tb.undefs ++ ["undefined"] }
        let (ms, tb) ← goElems fe rec uid opts useRep gap t ind tb
        .ok ((jsonQuote ph) :: ms, tb)
      else do
        let (ms, tb) ← goElems fe rec uid opts useRep gap t ind tb
        .ok ("null" :: ms, tb)) :=
  rfl

/-- Two nested serializers that agree on strictly smaller values give the same
stringify pass.  Proved for the three mutual traversal functions at once, by
strong induction on the measure. -/
theorem go_congr (fe : Bool) (uid : String) (useRep : Bool) (gap : String)
    (rec1 rec2 : SerializeJSOptions → JSValue → Except SerErr String) :
    ∀ n : Nat,
      (∀ v : JSValue, msize v ≤ n → ∀ opts : SerializeJSOptions,
        (∀ o w, msize w < msize v → rec1 o w = rec2 o w) →
        ∀ ind tb, goVal fe rec1 uid opts useRep gap v ind tb
          = goVal fe rec2 uid opts useRep gap v ind tb) ∧
      (∀ fs : List (String × JSValue), msizeFields fs ≤ n → ∀ opts,
        (∀ o w, msize w ≤ msizeFields fs → rec1 o w = rec2 o w) →
        ∀ ind tb, goFields fe rec1 uid opts useRep gap fs ind tb
          = goFields fe rec2 uid opts useRep gap fs ind tb) ∧
      (∀ es : List (Option JSValue), msizeElems es ≤ n → ∀ opts,
        (∀ o w, msize w ≤ msizeElems es → rec1 o w = rec2 o w) →
        ∀ ind tb, goElems fe rec1 uid opts useRep gap es ind tb
          = goElems fe rec2 uid opts useRep gap es ind tb) := by
  intro n
  induction n using Nat.strong_induction_on with
  | _ n ih =>
    refine ⟨?_, ?_, ?_⟩
    · intro v hv opts hr ind tb
      rw [goVal_unfold, goVal_unfold]
      have hcore : ∀ tb1, goValCore fe rec1 uid opts useRep gap ind v tb1
          = goValCore fe rec2 uid opts useRep gap ind v tb1 := by
        intro tb1
        cases v with
        | obj fs =>
          have hsz : msize (.obj fs) = 4 + msizeFields fs := rfl
          have hfs := (ih (msizeFields fs) (by rw [hsz] at hv; omega)).2.1 fs
            (Nat.le_refl _) opts
            (fun o w hw => hr o w (by rw [hsz]; omega)) (ind ++ gap) tb1
          simp only [goValCore]
          rw [hfs]
        | arr es =>
          have hsz : msize (.arr es) = 6 + msizeElems es := rfl
          have hes := (ih (msizeElems es) (by rw [hsz] at hv; omega)).2.2 es
            (Nat.le_refl _) opts
            (fun o w hw => hr o w (by rw [hsz]; omega)) (ind ++ gap) tb1
          simp only [goValCore]
          rw [hes]
        | num n0 => cases n0 <;> rfl
        | date iso => cases iso <;> rfl
        | _ => rfl
      cases useRep with
      | false => exact hcore tb
      | true =>
        rw [replacerPhase_congr fe rec1 rec2 uid opts v tb hr]
        exact exbind_congr _ _ _ (fun a _ => by
          obtain ⟨repl, tb1⟩ := a
          cases repl with
          | some ph => rfl
          | none => exact hcore tb1)
    · intro fs hfs opts hr ind tb
      cases fs with
      | nil => rfl
      | cons p t =>
        obtain ⟨k, v⟩ := p
        have hsz : msizeFields ((k, v) :: t) = 4 + msize v + msizeFields t := rfl
        have ht : ∀ tb1, goFields fe rec1 uid opts useRep gap t ind tb1
            = goFields fe rec2 uid opts useRep gap t ind tb1 :=
          fun tb1 => (ih (msizeFields t) (by rw [hsz] at hfs; omega)).2.1 t
            (Nat.le_refl _) opts
            (fun o w hw => hr o w (by rw [hsz]; omega)) ind tb1
        rw [goFields_cons_unfold, goFields_cons_unfold]
        split
        · exact ht tb
        · have hval := (ih (msize v) (by rw [hsz] at hfs; omega)).1 v
            (Nat.le_refl _) opts
            (fun o w hw => hr o w (by rw [hsz]; omega)) ind tb
          rw [hval]
          exact exbind_congr _ _ _ (fun a _ => by
            obtain ⟨r, tb1⟩ := a
            show (goFields fe rec1 uid opts useRep gap t ind tb1 >>= _)
              = (goFields fe rec2 uid opts useRep gap t ind tb1 >>= _)
            rw [ht tb1])
    · intro es hes opts hr ind tb
      cases es with
      | nil => rfl
      | cons e t =>
        cases e with
        | some v =>
          have hsz : msizeElems (some v :: t) = 6 + msize v + msizeElems t := rfl
          have ht : ∀ tb1, goElems fe rec1 uid opts useRep gap t ind tb1
              = goElems fe rec2 uid opts useRep gap t ind tb1 :=
            fun tb1 => (ih (msizeElems t) (by rw [hsz] at hes; omega)).2.2 t
              (Nat.le_refl _) opts
              (fun o w hw => hr o w (by rw [hsz]; omega)) ind tb1
          rw [goElems_some_unfold, goElems_some_unfold]
          split
          · split
            · show (goElems fe rec1 uid opts useRep gap t ind _ >>= _)
                = (goElems fe rec2 uid opts useRep gap t ind _ >>= _)
              rw [ht]
            · show (goElems fe rec1 uid opts useRep gap t ind _ >>= _)
                = (goElems fe rec2 uid opts useRep gap t ind _ >>= _)
              rw [ht]
          · have hval := (ih (msize v) (by rw [hsz] at hes; omega)).1 v
              (Nat.le_refl _) opts
              (fun o w hw => hr o w (by rw [hsz]; omega)) ind tb
            rw [hval]
            exact exbind_congr _ _ _ (fun a _ => by
              obtain ⟨r, tb1⟩ := a
              show (goElems fe rec1 uid opts useRep gap t ind tb1 >>= _)
                = (goElems fe rec2 uid opts useRep gap t ind tb1 >>= _)
              rw [ht tb1])
        | none =>
          have ht : ∀ tb1, goElems fe rec1 uid opts useRep gap t ind tb1
              = goElems fe rec2 uid opts useRep gap t ind tb1 :=
            fun tb1 => (ih (msizeElems t)
                (by simp only [msizeElems] at hes; omega)).2.2 t
              (Nat.le_refl _) opts
              (fun o w hw => hr o w (by simp only [msizeElems]; omega)) ind tb1
          rw [goElems_none_unfold, goElems_none_unfold]
          split
          · show (goElems fe rec1 uid opts useRep gap t ind _ >>= _)
              = (goElems fe rec2 uid opts useRep gap t ind _ >>= _)
            rw [ht]
          · show (goElems fe rec1 uid opts useRep gap t ind _ >>= _)
              = (goElems fe rec2 uid opts useRep gap t ind _ >>= _)
            rw [ht]

theorem serializeJSBody_congr (fe : Bool)
    (rec1 rec2 : SerializeJSOptions → JSValue → Except SerErr String)
    (uid : String) (opts : SerializeJSOptions) (obj0 : JSValue)
    (hr : ∀ o w, msize w < msize obj0 → rec1 o w = rec2 o w) :
    serializeJSBody fe rec1 uid opts obj0 = serializeJSBody fe rec2 uid opts obj0 := by
  have hgv : ∀ obj1 : JSValue, msize obj1 ≤ msize obj0 →
      goVal fe rec1 uid opts (!opts.isJSON)
          (if opts.isJSON && !(spaceTruthy opts.space) then "" else gapOf opts.space)
          obj1 "" {}
        = goVal fe rec2 uid opts (!opts.isJSON)
          (if opts.isJSON && !(spaceTruthy opts.space) then "" else gapOf opts.space)
          obj1 "" {} :=
    fun obj1 hle => (go_congr fe uid (!opts.isJSON)
      (if opts.isJSON && !(spaceTruthy opts.space) then "" else gapOf opts.space)
      rec1 rec2 (msize obj1)).1 obj1 (Nat.le_refl _) opts
      (fun o w hw => hr o w (Nat.lt_of_lt_of_le hw hle)) "" {}
  simp only [serializeJSBody]
  split
  · rfl
  · split
    · rfl
    · rw [hgv obj0 (Nat.le_refl _)]

/-- Any two sufficient fuels give the same result: the serializer with fuel
`msize v + 1` is the limit of the fuelled approximations. -/
theorem serializeJSF_irrel (fe : Bool) (uid : String) :
    ∀ n : Nat, ∀ v : JSValue, msize v ≤ n →
      ∀ (opts : SerializeJSOptions) (f g : Nat),
      msize v < f → msize v < g →
      serializeJSF fe f uid opts v = serializeJSF fe g uid opts v := by
  intro n
  induction n using Nat.strong_induction_on with
  | _ n ih =>
    intro v hv opts f g hf hg
    obtain ⟨f1, rfl⟩ : ∃ f1, f = f1 + 1 := ⟨f - 1, by omega⟩
    obtain ⟨g1, rfl⟩ : ∃ g1, g = g1 + 1 := ⟨g - 1, by omega⟩
    show serializeJSBody fe (fun o w => serializeJSF fe f1 uid o w) uid opts v
      = serializeJSBody fe (fun o w => serializeJSF fe g1 uid o w) uid opts v
    apply serializeJSBody_congr
    intro o w hw
    exact ih (msize w) (by omega) w (Nat.le_refl _) o f1 g1 (by omega) (by omega)

theorem exbind_ok {ε α β : Type} (a : α) (k : α → Except ε β) :
    (Except.ok a : Except ε α) >>= k = k a := rfl

theorem exbind_error {ε α β : Type} (e : ε) (k : α → Except ε β) :
    (Except.error e : Except ε α) >>= k = .error e := rfl

/-- Serializing a concatenation of member lists is the sequential composition
of serializing the two halves (members concatenate, tables thread through). -/
theorem goFields_append (fe : Bool)
    (rec : SerializeJSOptions → JSValue → Except SerErr String)
    (uid : String) (opts : SerializeJSOptions) (useRep : Bool) (gap : String)
    (l1 l2 : List (String × JSValue)) :
    ∀ ind tb, goFields fe rec uid opts useRep gap (l1 ++ l2) ind tb
      = (goFields fe rec uid opts useRep gap l1 ind tb >>= fun p =>
          goFields fe rec uid opts useRep gap l2 ind p.2 >>= fun q =>
          .ok (p.1 ++ q.1, q.2)) := by
  induction l1 with
  | nil =>
    intro ind tb
    show goFields fe rec uid opts useRep gap l2 ind tb = _
    rw [show goFields fe rec uid opts useRep gap ([] : List (String × JSValue)) ind tb
      = .ok ([], tb) from rfl, exbind_ok]
    cases h : goFields fe rec uid opts useRep gap l2 ind tb with
    | error e => rw [exbind_error]
    | ok q =>
      rw [exbind_ok]
      simp
  | cons p t ih =>
    obtain ⟨k, v⟩ := p
    intro ind tb
    rw [List.cons_append, goFields_cons_unfold, goFields_cons_unfold]
    split
    · exact ih ind tb
    · cases hgv : goVal fe rec uid opts useRep gap v ind tb with
      | error e =>
        show (Except.error e >>= _) = ((Except.error e >>= _) >>= _)
        rw [exbind_error, exbind_error, exbind_error]
      | ok p1 =>
        obtain ⟨r, tba⟩ := p1
        show (Except.ok (r, tba) >>= _) = ((Except.ok (r, tba) >>= _) >>= _)
        rw [exbind_ok, exbind_ok]
        show (goFields fe rec uid opts useRep gap (t ++ l2) ind tba >>= _)
          = ((goFields fe rec uid opts useRep gap t ind tba >>= _) >>= _)
        rw [ih ind tba]
        cases hgt : goFields fe rec uid opts useRep gap t ind tba with
        | error e => rw [exbind_error, exbind_error, exbind_error]
        | ok p2 =>
          obtain ⟨ms, tbb⟩ := p2
          rw [exbind_ok, exbind_ok]
          dsimp only
          cases r <;> cases hgl : goFields fe rec uid opts useRep gap l2 ind tbb <;>
            simp [exbind_ok, exbind_error, hgl, List.cons_append]

theorem serializeFunc_native (fsrc fname : String)
    (h : hasNativeMarker fsrc.data = true) :
    serializeFunc fsrc fname = .error (.nativeFunction fname) := by
  simp [serializeFunc, h]

/-- Visiting a native function during the stringify pass (with the replacer)
raises the `UnsupportedValue` error, whatever the tables and indentation. -/
theorem goVal_func_native
    (rec : SerializeJSOptions → JSValue → Except SerErr String)
    (uid : String) (opts : SerializeJSOptions) (gap ind : String) (tb : Tables)
    (fsrc fname : String) (h : hasNativeMarker fsrc.data = true) :
    goVal true rec uid opts true gap (.func fsrc fname) ind tb
      = .error (.nativeFunction fname) := by
  rw [goVal_unfold]
  show (replacerPhase true rec uid opts (.func fsrc fname) tb >>= _) = _
  rw [show replacerPhase true rec uid opts (.func fsrc fname) tb
      = (serializeFunc fsrc fname >>= fun recon =>
          .ok (some (placeholder 'F' uid tb.functions.length),
            { tb with functions := tb.functions ++ [recon] })) from rfl]
  rw [serializeFunc_native fsrc fname h, exbind_error, exbind_error]

theorem goFields_prefix_ok (fe : Bool)
    (rec : SerializeJSOptions → JSValue → Except SerErr String)
    (uid : String) (opts : SerializeJSOptions) (useRep : Bool) (gap : String)
    (l1 l2 : List (String × JSValue)) (ind : String) (tb : Tables)
    (p : List String × Tables)
    (h : goFields fe rec uid opts useRep gap (l1 ++ l2) ind tb = .ok p) :
    ∃ q, goFields fe rec uid opts useRep gap l1 ind tb = .ok q := by
  rw [goFields_append] at h
  cases hgf : goFields fe rec uid opts useRep gap l1 ind tb with
  | error e =>
    rw [hgf, exbind_error] at h
    cases h
  | ok q => exact ⟨q, rfl⟩

/-- Serializing a member list whose prefix succeeds and which then carries a
native function fails with the `UnsupportedValue` error for that function. -/
theorem goFields_native_error
    (rec : SerializeJSOptions → JSValue → Except SerErr String)
    (uid : String) (gap : String) (l1 l2 : List (String × JSValue))
    (k fsrc fname : String) (ind : String) (tb : Tables)
    (hpre : ∃ q, goFields true rec uid {} true gap l1 ind tb = .ok q)
    (h : hasNativeMarker fsrc.data = true) :
    goFields true rec uid {} true gap (l1 ++ (k, .func fsrc fname) :: l2) ind tb
      = .error (.nativeFunction fname) := by
  obtain ⟨q, hpre⟩ := hpre
  rw [goFields_append, hpre, exbind_ok, goFields_cons_unfold]
  show (goVal true rec uid {} true gap (.func fsrc fname) ind q.2 >>= _) >>= _
    = _
  rw [goVal_func_native rec uid {} gap ind q.2 fsrc fname h, exbind_error,
    exbind_error]

/-- `serializeJS` on a plain object with the default options, expressed
through the member traversal.  The nested serializer it uses carries fuel
`msize (.obj d)`. -/
theorem serializeJS_obj_eq (uid : String) (d : List (String × JSValue)) :
    serializeJS uid {} (.obj d)
      = ((goFields true (fun o w => serializeJSF true (msize (.obj d)) uid o w)
            uid {} true "" d ("" ++ "") {} >>= fun p =>
          Except.ok (some (wrapBraces "" "" p.1), p.2)) >>= fun r =>
          match r.1 with
          | none => .ok "undefined"
          | some str =>
            if Tables.isEmpty r.2 then .ok (escapeUnsafe str)
            else substPlaceholders uid r.2 (escapeUnsafe str)) := by
  show serializeJSBody true (fun o w => serializeJSF true (msize (.obj d)) uid o w)
      uid {} (.obj d) = _
  rw [show serializeJSBody true (fun o w => serializeJSF true (msize (.obj d)) uid o w)
      uid {} (.obj d)
    = (goVal true (fun o w => serializeJSF true (msize (.obj d)) uid o w)
        uid {} true "" (.obj d) "" {} >>= fun r =>
        match r.1 with
        | none => .ok "undefined"
        | some str =>
          if Tables.isEmpty r.2 then .ok (escapeUnsafe str)
          else substPlaceholders uid r.2 (escapeUnsafe str)) from rfl]
  rw [show goVal true (fun o w => serializeJSF true (msize (.obj d)) uid o w)
      uid {} true "" (.obj d) "" {}
    = (goFields true (fun o w => serializeJSF true (msize (.obj d)) uid o w)
        uid {} true "" d ("" ++ "") {} >>= fun p =>
        Except.ok (some (wrapBraces "" "" p.1), p.2)) from rfl]

theorem persistIfEnabled_data (uid : String) (s : PluginState) :
    (PersistentStoreGlobal.persistIfEnabled uid s).2.data = s.data := by
  simp only [PersistentStoreGlobal.persistIfEnabled]
  split
  · split
    · simp only [PersistentStore.storeData]
      split <;> rfl
    · rfl
  · rfl

theorem persistIfEnabled_override (uid : String) (s : PluginState) :
    (PersistentStoreGlobal.persistIfEnabled uid s).2.lazyPersistenceOverride
      = s.lazyPersistenceOverride := by
  simp only [PersistentStoreGlobal.persistIfEnabled]
  split
  · split
    · simp only [PersistentStore.storeData]
      split <;> rfl
    · rfl
  · rfl

theorem persistIfEnabled_lazy (uid : String) (s : PluginState) :
    (PersistentStoreGlobal.persistIfEnabled uid s).2.lazyPersistence
      = s.lazyPersistence := by
  simp only [PersistentStoreGlobal.persistIfEnabled]
  split
  · split
    · simp only [PersistentStore.storeData]
      split <;> rfl
    · rfl
  · rfl

theorem persistIfEnabled_fst_ok (uid : String) (s : PluginState) (t : String)
    (h : serializeJS uid {} (.obj s.data) = .ok t) :
    (PersistentStoreGlobal.persistIfEnabled uid s).1 = .ok () := by
  have h' : PersistentStore.storeToString uid s = .ok t := h
  simp only [PersistentStoreGlobal.persistIfEnabled]
  split
  · split
    · simp [PersistentStore.storeData, h']
    · rfl
  · rfl

theorem store_eq (uid : String) (s : PluginState) (k : String) (v : JSValue) :
    PersistentStoreGlobal.store uid s k v
      = ((PersistentStoreGlobal.persistIfEnabled uid
            { s with data := setOwn s.data k v }).1.map (fun _ => readProp s.data k),
         (PersistentStoreGlobal.persistIfEnabled uid
            { s with data := setOwn s.data k v }).2) := by
  simp only [PersistentStoreGlobal.store, PersistentStore.storeMember]
  rcases h : PersistentStoreGlobal.persistIfEnabled uid
    { s with data := setOwn s.data k v } with ⟨r, s2⟩
  cases r <;> simp [h, Except.map]

theorem delete_eq (uid : String) (s : PluginState) (k : String) :
    PersistentStoreGlobal.delete uid s k
      = ((PersistentStoreGlobal.persistIfEnabled uid
            { s with data := eraseOwn s.data k }).1.map (fun _ => readProp s.data k),
         (PersistentStoreGlobal.persistIfEnabled uid
            { s with data := eraseOwn s.data k }).2) := by
  simp only [PersistentStoreGlobal.delete, PersistentStore.deleteMember]
  rcases h : PersistentStoreGlobal.persistIfEnabled uid
    { s with data := eraseOwn s.data k } with ⟨r, s2⟩
  cases r <;> simp [h, Except.map]

-- Claim theorems ---------------------------------------------------------------

/-- C1: the claimed effective-policy table says a mutating operation flushes in
state `ForceEager` (override `false`) regardless of the lazy-persistence
setting.  The code disagrees: `persistIfEnabled` tests
`!this.lazyPersistenceOverride`, which is `true` for the override value
`false`, and then flushes only when the setting is eager.  This theorem
evaluates the code at the failing input: override `false` (set by
`setEagerPersistence`), setting `lazyPersistence = true` — a `store` performs
no collaborator write, does not change the persisted text, and still returns
the previous value.  This contradicts `setEagerPersistence`'s own doc comment
("regardless of the option in settings"). -/
theorem c1_forceEager_skips_flush_under_lazy_setting :
    ∀ uid : String,
      PersistentStoreGlobal.store uid
          (PersistentStoreGlobal.setEagerPersistence
            { lazyPersistence := true, persistedData := "\x7b\x7d", data := [],
              lazyPersistenceOverride := none, writes := 0 })
          "k" (.num (.int 1))
        = (.ok .undef,
            { lazyPersistence := true, persistedData := "\x7b\x7d",
              data := [("k", .num (.int 1))],
              lazyPersistenceOverride := some false, writes := 0 }) :=
  fun _ => rfl

/-- C2: the round-trip claim includes `v = NaN`; the code, however, never
classifies `NaN` as a special kind — the falsy fast exit returns it unchanged,
and even without the fast exit the infinity branch requires
`!isNaN(origValue)` — so `NaN` serializes to the JSON text `null`, which
decodes to `null`, not `NaN`.  This theorem evaluates the code at the failing
input. -/
theorem c2_nan_serializes_to_null :
    ∀ (uid : String) (opts : SerializeJSOptions),
      serializeJS uid opts (.num .nan) = .ok "null" ∧
      jsEval "null" = some .null ∧ JSValue.null ≠ JSValue.num .nan := by
  intro uid opts
  obtain ⟨sp, isj, uns, ign⟩ := opts
  refine ⟨?_, rfl, fun h => JSValue.noConfusion h⟩
  cases isj <;> cases uns <;> cases ign <;> rfl

/-- C4: in state `ForceLazy` (override `true`, as set by `setLazyPersistance`),
`store` performs no collaborator write and leaves the persisted text
unchanged, for every key, value, and lazy-persistence setting: the call
reduces to the pure in-memory update. -/
theorem c4_forceLazy_store_never_writes (uid k : String) (v : JSValue)
    (s : PluginState) (h : s.lazyPersistenceOverride = some true) :
    PersistentStoreGlobal.store uid s k v
        = (.ok (readProp s.data k), { s with data := setOwn s.data k v }) ∧
    (PersistentStoreGlobal.store uid s k v).2.writes = s.writes ∧
    (PersistentStoreGlobal.store uid s k v).2.persistedData = s.persistedData := by
  have hstore : PersistentStoreGlobal.store uid s k v
      = (.ok (readProp s.data k), { s with data := setOwn s.data k v }) := by
    simp [PersistentStoreGlobal.store, PersistentStore.storeMember,
      PersistentStoreGlobal.persistIfEnabled, PersistentStoreGlobal.overrideTruthy, h]
  exact ⟨hstore, by rw [hstore], by rw [hstore]⟩

theorem c4_forceLazy_store_never_writes_witness :
    PersistentStoreGlobal.store "aa"
        { lazyPersistence := false, persistedData := "p", data := [],
          lazyPersistenceOverride := some true, writes := 0 } "k" (.num (.int 1))
      = (.ok .undef,
          { lazyPersistence := false, persistedData := "p",
            data := [("k", .num (.int 1))],
            lazyPersistenceOverride := some true, writes := 0 }) :=
  (c4_forceLazy_store_never_writes "aa" "k" (.num (.int 1)) _ rfl).1

/-- C9: `load` and `exists` are pure reads: they return the property
read (resp. the own-property check) and leave the whole state — in-memory
mapping, persisted text, override, write count — exactly unchanged. -/
theorem c9_load_exists_pure_reads (k : String) (s : PluginState) :
    PersistentStoreGlobal.load s k = (readProp s.data k, s) ∧
    PersistentStoreGlobal.existsKey s k = ((lookupOwn s.data k).isSome, s) :=
  ⟨rfl, rfl⟩

/-- C10: for an inherited prototype key that was never stored (here
`"toString"`), `exists` answers `false` (own-property check) while `load`
returns the inherited native function, which is not `undefined`: the two
disagree about whether the key is present. -/
theorem c10_exists_load_disagree_on_prototype (s : PluginState)
    (h : lookupOwn s.data "toString" = none) :
    (PersistentStoreGlobal.existsKey s "toString").1 = false ∧
    (PersistentStoreGlobal.load s "toString").1
        = .func "function toString() \x7b [native code] \x7d" "toString" ∧
    (PersistentStoreGlobal.load s "toString").1 ≠ .undef := by
  have hload : (PersistentStoreGlobal.load s "toString").1
      = .func "function toString() \x7b [native code] \x7d" "toString" := by
    simp [PersistentStoreGlobal.load, PersistentStore.loadMember, readProp, h]
    rfl
  refine ⟨?_, hload, ?_⟩
  · simp [PersistentStoreGlobal.existsKey, PersistentStore.existsMember, h]
  · rw [hload]
    exact fun hh => JSValue.noConfusion hh

theorem c10_exists_load_disagree_on_prototype_witness :
    (PersistentStoreGlobal.existsKey
        { lazyPersistence := false, persistedData := "p", data := [],
          lazyPersistenceOverride := none, writes := 0 } "toString").1 = false ∧
    (PersistentStoreGlobal.load
        { lazyPersistence := false, persistedData := "p", data := [],
          lazyPersistenceOverride := none, writes := 0 } "toString").1
      = .func "function toString() \x7b [native code] \x7d" "toString" :=
  ⟨(c10_exists_load_disagree_on_prototype
      { lazyPersistence := false, persistedData := "p", data := [],
        lazyPersistenceOverride := none, writes := 0 } rfl).1,
   (c10_exists_load_disagree_on_prototype
      { lazyPersistence := false, persistedData := "p", data := [],
        lazyPersistenceOverride := none, writes := 0 } rfl).2.1⟩

/-- C7 counterexample: the claim calls the result text `undefined` a
"four-character text"; the code returns `String(undefined)`, the
nine-character text `undefined`. -/
theorem c7_counterexample_undefined_has_nine_chars :
    serializeJS "aa" {} .undef = .ok "undefined" ∧
    "undefined".length = 9 ∧ ¬("undefined".length = 4) :=
  ⟨rfl, rfl, by decide⟩

/-- C7 amended: if the root value is absent-value the result is the
nine-character text `undefined`, for every options configuration; likewise
when `ignoreFunction` is set and the root value is a function. -/
theorem c7_root_undefined_text (uid : String) (opts : SerializeJSOptions) :
    serializeJS uid opts .undef = .ok "undefined" ∧
    "undefined".length = 9 ∧
    (opts.ignoreFunction = true →
      ∀ src name, serializeJS uid opts (.func src name) = .ok "undefined") := by
  obtain ⟨sp, isj, uns, ign⟩ := opts
  refine ⟨?_, rfl, ?_⟩
  · cases ign <;> rfl
  · intro h src name
    cases h
    rfl

theorem c7_root_undefined_text_witness :
    serializeJS "aa" { ignoreFunction := true } (.func "x => x" "f")
      = .ok "undefined" :=
  (c7_root_undefined_text "aa" { ignoreFunction := true }).2.2 rfl "x => x" "f"

/-- C5 counterexample: the claim quantifies over every starting store in which
`"k"` is unset; in a store that also holds a native function under the default
eager policy, the first `store("k", 1)` call does not return absent-value — the
flush throws, so the call fails. -/
theorem c5_counterexample_first_store_throws :
    lookupOwn [("bad",
        JSValue.func "function max() \x7b [native code] \x7d" "max")] "k" = none ∧
    (PersistentStoreGlobal.store "aa"
        { lazyPersistence := false, persistedData := "\x7b\x7d",
          data := [("bad", .func "function max() \x7b [native code] \x7d" "max")],
          lazyPersistenceOverride := none, writes := 0 } "k" (.num (.int 1))).1
      = .error (.nativeFunction "max") :=
  ⟨rfl, rfl⟩

/-- C5 amended: starting from a store in which key `"k"` is unset and whose
contents serialize (each flush the sequence triggers succeeds — in particular
no stored value is a native function), the sequence
`store("k",1); store("k",2); delete("k")` returns, in order, absent-value,
`1`, and `2`; afterwards `exists("k")` is `false` and `load("k")` is
absent-value. -/
theorem c5_store_store_delete_sequence (uid : String) (s : PluginState)
    (hk : lookupOwn s.data "k" = none)
    (h1 : ∃ t, serializeJS uid {} (.obj (setOwn s.data "k" (.num (.int 1)))) = .ok t)
    (h2 : ∃ t, serializeJS uid {} (.obj (setOwn s.data "k" (.num (.int 2)))) = .ok t)
    (h3 : ∃ t, serializeJS uid {} (.obj s.data) = .ok t) :
    (PersistentStoreGlobal.store uid s "k" (.num (.int 1))).1 = .ok .undef ∧
    (PersistentStoreGlobal.store uid
        (PersistentStoreGlobal.store uid s "k" (.num (.int 1))).2
        "k" (.num (.int 2))).1 = .ok (.num (.int 1)) ∧
    (PersistentStoreGlobal.delete uid
        (PersistentStoreGlobal.store uid
          (PersistentStoreGlobal.store uid s "k" (.num (.int 1))).2
          "k" (.num (.int 2))).2 "k").1 = .ok (.num (.int 2)) ∧
    (PersistentStoreGlobal.existsKey
        (PersistentStoreGlobal.delete uid
          (PersistentStoreGlobal.store uid
            (PersistentStoreGlobal.store uid s "k" (.num (.int 1))).2
            "k" (.num (.int 2))).2 "k").2 "k").1 = false ∧
    (PersistentStoreGlobal.load
        (PersistentStoreGlobal.delete uid
          (PersistentStoreGlobal.store uid
            (PersistentStoreGlobal.store uid s "k" (.num (.int 1))).2
            "k" (.num (.int 2))).2 "k").2 "k").1 = .undef := by
  obtain ⟨t1, h1⟩ := h1
  obtain ⟨t2, h2⟩ := h2
  obtain ⟨t3, h3⟩ := h3
  -- First store.
  have e1 := store_eq uid s "k" (.num (.int 1))
  have piE1ok : (PersistentStoreGlobal.persistIfEnabled uid
      { s with data := setOwn s.data "k" (.num (.int 1)) }).1 = .ok () :=
    persistIfEnabled_fst_ok uid _ t1 h1
  have r1fst : (PersistentStoreGlobal.store uid s "k" (.num (.int 1))).1 = .ok .undef := by
    rw [e1]
    simp [piE1ok, Except.map, readProp_k_of_none s.data hk]
  have r1data : (PersistentStoreGlobal.store uid s "k" (.num (.int 1))).2.data
      = setOwn s.data "k" (.num (.int 1)) := by
    rw [e1]
    exact persistIfEnabled_data uid _
  -- Second store.
  set s1 := (PersistentStoreGlobal.store uid s "k" (.num (.int 1))).2 with hs1
  have e2 := store_eq uid s1 "k" (.num (.int 2))
  have hdata2 : setOwn s1.data "k" (.num (.int 2)) = setOwn s.data "k" (.num (.int 2)) := by
    rw [r1data, setOwn_setOwn_self]
  have piE2ok : (PersistentStoreGlobal.persistIfEnabled uid
      { s1 with data := setOwn s1.data "k" (.num (.int 2)) }).1 = .ok () := by
    apply persistIfEnabled_fst_ok uid _ t2
    show serializeJS uid {} (.obj (setOwn s1.data "k" (.num (.int 2)))) = .ok t2
    rw [hdata2]
    exact h2
  have r2fst : (PersistentStoreGlobal.store uid s1 "k" (.num (.int 2))).1
      = .ok (.num (.int 1)) := by
    rw [e2]
    dsimp only
    rw [piE2ok]
    simp [Except.map, r1data, readProp_setOwn_self]
  have r2data : (PersistentStoreGlobal.store uid s1 "k" (.num (.int 2))).2.data
      = setOwn s.data "k" (.num (.int 2)) := by
    rw [e2]
    rw [show (PersistentStoreGlobal.persistIfEnabled uid
        { s1 with data := setOwn s1.data "k" (.num (.int 2)) }).2.data
      = setOwn s1.data "k" (.num (.int 2)) from persistIfEnabled_data uid _]
    exact hdata2
  -- Delete.
  set s2 := (PersistentStoreGlobal.store uid s1 "k" (.num (.int 2))).2 with hs2
  have e3 := delete_eq uid s2 "k"
  have hdata3 : eraseOwn s2.data "k" = s.data := by
    rw [r2data, eraseOwn_setOwn_of_none s.data "k" _ hk]
  have piE3ok : (PersistentStoreGlobal.persistIfEnabled uid
      { s2 with data := eraseOwn s2.data "k" }).1 = .ok () := by
    apply persistIfEnabled_fst_ok uid _ t3
    show serializeJS uid {} (.obj (eraseOwn s2.data "k")) = .ok t3
    rw [hdata3]
    exact h3
  have r3fst : (PersistentStoreGlobal.delete uid s2 "k").1 = .ok (.num (.int 2)) := by
    rw [e3]
    dsimp only
    rw [piE3ok]
    simp [Except.map, r2data, readProp_setOwn_self]
  have r3data : (PersistentStoreGlobal.delete uid s2 "k").2.data = s.data := by
    rw [e3]
    rw [show (PersistentStoreGlobal.persistIfEnabled uid
        { s2 with data := eraseOwn s2.data "k" }).2.data
      = eraseOwn s2.data "k" from persistIfEnabled_data uid _]
    exact hdata3
  refine ⟨r1fst, r2fst, r3fst, ?_, ?_⟩
  · simp [PersistentStoreGlobal.existsKey, PersistentStore.existsMember, r3data, hk]
  · simp [PersistentStoreGlobal.load, PersistentStore.loadMember, r3data,
      readProp_k_of_none s.data hk]

theorem setOwn_decomp (d : List (String × JSValue)) (k : String) (v : JSValue) :
    (lookupOwn d k = none ∧ setOwn d k v = d ++ [(k, v)]) ∨
    (∃ l1 w l2, d = l1 ++ (k, w) :: l2 ∧ setOwn d k v = l1 ++ (k, v) :: l2) := by
  induction d with
  | nil => exact Or.inl ⟨rfl, rfl⟩
  | cons p t ih =>
    obtain ⟨k0, w0⟩ := p
    by_cases h : k0 = k
    · subst h
      exact Or.inr ⟨[], w0, t, rfl, by simp [setOwn]⟩
    · cases ih with
      | inl hl =>
        exact Or.inl ⟨by simp [lookupOwn, h, hl.1], by simp [setOwn, h, hl.2]⟩
      | inr hr =>
        obtain ⟨l1, w, l2, hd, hset⟩ := hr
        exact Or.inr ⟨(k0, w0) :: l1, w, l2, by simp [hd], by simp [setOwn, h, hset]⟩

/-- Serializing a plain object that carries a native function at some key
fails with `UnsupportedValue`, provided the object with the previous binding
(or without the key) serialized successfully. -/
theorem serializeJS_setOwn_native (uid k fsrc fname : String)
    (d : List (String × JSValue)) (t0 : String)
    (hold : serializeJS uid {} (.obj d) = .ok t0)
    (hnative : hasNativeMarker fsrc.data = true) :
    serializeJS uid {} (.obj (setOwn d k (.func fsrc fname)))
      = .error (.nativeFunction fname) := by
  set natFn := JSValue.func fsrc fname with hnat
  set newd := setOwn d k natFn with hnewd
  set rOld := fun (o : SerializeJSOptions) (w : JSValue) =>
    serializeJSF true (msize (.obj d)) uid o w with hrOld
  set rNew := fun (o : SerializeJSOptions) (w : JSValue) =>
    serializeJSF true (msize (.obj newd)) uid o w with hrNew
  -- extract success of the old member traversal
  rw [serializeJS_obj_eq] at hold
  have hOld : ∃ p, goFields true rOld uid {} true "" d ("" ++ "") {} = .ok p := by
    cases hgf : goFields true rOld uid {} true "" d ("" ++ "") {} with
    | error e =>
      rw [hrOld] at hgf
      rw [hgf, exbind_error, exbind_error] at hold
      cases hold
    | ok p => exact ⟨p, rfl⟩
  -- congruence between the two nested serializers on small values
  have hcongr : ∀ l1 : List (String × JSValue),
      msizeFields l1 ≤ msizeFields d → msizeFields l1 ≤ msizeFields newd →
      ∀ ind tb, goFields true rNew uid {} true "" l1 ind tb
        = goFields true rOld uid {} true "" l1 ind tb := by
    intro l1 hld hlnew ind tb
    apply (go_congr true uid true "" rNew rOld (msizeFields l1)).2.1 l1
      (Nat.le_refl _) {}
    intro o w hw
    rw [hrNew, hrOld]
    apply serializeJSF_irrel true uid (msize w) w (Nat.le_refl _) o
    · show msize w < msize (.obj newd)
      have : msize (.obj newd) = 4 + msizeFields newd := rfl
      omega
    · show msize w < msize (.obj d)
      have : msize (.obj d) = 4 + msizeFields d := rfl
      omega
  -- the new traversal fails at the native function
  have hNew : goFields true rNew uid {} true "" newd ("" ++ "") {}
      = .error (.nativeFunction fname) := by
    rcases setOwn_decomp d k natFn with ⟨hnone, hset⟩ | ⟨l1, w, l2, hd, hset⟩
    · rw [hnewd, hset]
      apply goFields_native_error
      · obtain ⟨p, hp⟩ := hOld
        refine ⟨p, ?_⟩
        rw [hcongr d (Nat.le_refl _) ?_ ("" ++ "") {}]
        · exact hp
        · rw [hnewd, hset, msizeFields_append]
          omega
      · exact hnative
    · rw [hnewd, hset]
      apply goFields_native_error
      · obtain ⟨p, hp⟩ := hOld
        rw [hd] at hp
        obtain ⟨q, hq⟩ := goFields_prefix_ok true rOld uid {} true "" l1
          ((k, w) :: l2) ("" ++ "") {} p hp
        refine ⟨q, ?_⟩
        rw [hcongr l1 ?_ ?_ ("" ++ "") {}]
        · exact hq
        · rw [hd, msizeFields_append]
          omega
        · rw [hnewd, hset, msizeFields_append]
          omega
      · exact hnative
  rw [serializeJS_obj_eq]
  rw [show (goFields true (fun o w => serializeJSF true (msize (.obj newd)) uid o w)
      uid {} true "" newd ("" ++ "") {}) = goFields true rNew uid {} true ""
      newd ("" ++ "") {} from rfl]
  rw [hNew, exbind_error, exbind_error]

/-- C3 counterexample: storing a native built-in function under the default
eager policy does fail, but the failure is not atomic — the in-memory mapping
already holds the native function at the key after the call. -/
theorem c3_counterexample_store_native_mutates_memory :
    (PersistentStoreGlobal.store "aa"
        { lazyPersistence := false, persistedData := "\x7b\x7d", data := [],
          lazyPersistenceOverride := none, writes := 0 } "k"
        (.func "function max() \x7b [native code] \x7d" "max")).1
      = .error (.nativeFunction "max") ∧
    (PersistentStoreGlobal.store "aa"
        { lazyPersistence := false, persistedData := "\x7b\x7d", data := [],
          lazyPersistenceOverride := none, writes := 0 } "k"
        (.func "function max() \x7b [native code] \x7d" "max")).2.data
      = [("k", .func "function max() \x7b [native code] \x7d" "max")] ∧
    [("k", JSValue.func "function max() \x7b [native code] \x7d" "max")] ≠
      ([] : List (String × JSValue)) :=
  ⟨rfl, rfl, by simp⟩

/-- C3 amended: for every store state whose current contents serialize and
every key, storing a native built-in function always updates the in-memory
mapping to hold the function at that key; when the effective policy flushes
(no truthy override and an eager setting) the call then fails with
`UnsupportedValue` while the persisted text and the collaborator write count
stay unchanged; when the effective policy skips the flush the call succeeds
and returns the previous value — so the failure is not atomic for the
in-memory mapping, and no failure occurs at all under a lazy policy. -/
theorem c3_store_native_not_atomic (uid k fsrc fname : String) (s : PluginState)
    (hnative : hasNativeMarker fsrc.data = true)
    (hold : ∃ t, serializeJS uid {} (.obj s.data) = .ok t) :
    (PersistentStoreGlobal.store uid s k (.func fsrc fname)).2.data
        = setOwn s.data k (.func fsrc fname) ∧
    (PersistentStoreGlobal.overrideTruthy s.lazyPersistenceOverride = false →
      s.lazyPersistence = false →
      (PersistentStoreGlobal.store uid s k (.func fsrc fname)).1
          = .error (.nativeFunction fname) ∧
      (PersistentStoreGlobal.store uid s k (.func fsrc fname)).2.persistedData
          = s.persistedData ∧
      (PersistentStoreGlobal.store uid s k (.func fsrc fname)).2.writes
          = s.writes) ∧
    ((PersistentStoreGlobal.overrideTruthy s.lazyPersistenceOverride = true ∨
        s.lazyPersistence = true) →
      (PersistentStoreGlobal.store uid s k (.func fsrc fname)).1
          = .ok (readProp s.data k)) := by
  obtain ⟨t0, hold⟩ := hold
  have hser := serializeJS_setOwn_native uid k fsrc fname s.data t0 hold hnative
  have hstore := store_eq uid s k (.func fsrc fname)
  refine ⟨?_, ?_, ?_⟩
  · rw [hstore]
    exact persistIfEnabled_data uid _
  · intro hov hlz
    have hpiE : PersistentStoreGlobal.persistIfEnabled uid
        { s with data := setOwn s.data k (.func fsrc fname) }
        = (.error (.nativeFunction fname),
           { s with data := setOwn s.data k (.func fsrc fname) }) := by
      simp [PersistentStoreGlobal.persistIfEnabled, hov, hlz,
        eagerPersistenceEnabled, PersistentStore.storeData]
      rw [show PersistentStore.storeToString uid
          { lazyPersistence := false, persistedData := s.persistedData,
            data := setOwn s.data k (.func fsrc fname),
            lazyPersistenceOverride := s.lazyPersistenceOverride,
            writes := s.writes } = Except.error (.nativeFunction fname) from hser]
    rw [hstore, hpiE]
    exact ⟨rfl, rfl, rfl⟩
  · intro hskip
    have hpiE : PersistentStoreGlobal.persistIfEnabled uid
        { s with data := setOwn s.data k (.func fsrc fname) }
        = (.ok (), { s with data := setOwn s.data k (.func fsrc fname) }) := by
      cases hskip with
      | inl hov => simp [PersistentStoreGlobal.persistIfEnabled, hov]
      | inr hlz =>
        simp [PersistentStoreGlobal.persistIfEnabled, eagerPersistenceEnabled, hlz]
    rw [hstore, hpiE]
    rfl

theorem c3_store_native_not_atomic_witness :
    (PersistentStoreGlobal.store "aa"
        { lazyPersistence := false, persistedData := "\x7b\x7d", data := [],
          lazyPersistenceOverride := none, writes := 0 } "k"
        (.func "function max() \x7b [native code] \x7d" "max")).2.data
      = [("k", .func "function max() \x7b [native code] \x7d" "max")] ∧
    (PersistentStoreGlobal.store "aa"
        { lazyPersistence := false, persistedData := "\x7b\x7d", data := [],
          lazyPersistenceOverride := none, writes := 0 } "k"
        (.func "function max() \x7b [native code] \x7d" "max")).1
      = .error (.nativeFunction "max") :=
  ⟨(c3_store_native_not_atomic "aa" "k"
      "function max() \x7b [native code] \x7d" "max"
      { lazyPersistence := false, persistedData := "\x7b\x7d", data := [],
        lazyPersistenceOverride := none, writes := 0 }
      rfl ⟨"\x7b\x7d", rfl⟩).1,
   ((c3_store_native_not_atomic "aa" "k"
      "function max() \x7b [native code] \x7d" "max"
      { lazyPersistence := false, persistedData := "\x7b\x7d", data := [],
        lazyPersistenceOverride := none, writes := 0 }
      rfl ⟨"\x7b\x7d", rfl⟩).2.1 rfl rfl).1⟩

theorem c5_store_store_delete_sequence_witness :
    (PersistentStoreGlobal.store "aa"
        { lazyPersistence := false, persistedData := "\x7b\x7d", data := [],
          lazyPersistenceOverride := none, writes := 0 } "k" (.num (.int 1))).1
      = .ok .undef :=
  (c5_store_store_delete_sequence "aa"
    { lazyPersistence := false, persistedData := "\x7b\x7d", data := [],
      lazyPersistenceOverride := none, writes := 0 }
    rfl ⟨_, rfl⟩ ⟨_, rfl⟩ ⟨_, rfl⟩).1


-- C8: the falsy fast exit -----------------------------------------------------

theorem fastExit_str (s : String) : fastExitCond (.str s) = (s == "") := by
  show (((s == "") && true) && true) = (s == "")
  simp

theorem fastExit_bigint (i : Int) : fastExitCond (.bigint i) = false := by
  show (((i == 0) && true) && !(i == 0)) = false
  cases i == 0 <;> rfl

theorem serWFFields_append (a b : List (String × JSValue)) :
    serWFFields (a ++ b) = (serWFFields a && serWFFields b) := by
  induction a with
  | nil => simp [serWFFields]
  | cons p t ih =>
    obtain ⟨k, v⟩ := p
    simp [serWFFields, ih, Bool.and_assoc]

/-- The keyed-mapping transform `[...entries].map(pair)` preserves
well-formedness. -/
theorem serWF_mapPairsArr :
    ∀ es : List (JSValue × JSValue), serWFPairs es = true →
      serWF (.arr (es.map fun p => some (.arr [some p.1, some p.2]))) = true := by
  intro es
  show serWFPairs es = true →
    serWFElems (es.map fun p => some (.arr [some p.1, some p.2])) = true
  induction es with
  | nil => intro _; rfl
  | cons p t ih =>
    intro h
    obtain ⟨k, v⟩ := p
    simp only [serWFPairs, Bool.and_eq_true] at h
    simp only [List.map_cons, serWFElems, Bool.and_eq_true]
    refine ⟨?_, ih h.2⟩
    show (serWF k && (serWF v && true)) = true
    simp [h.1.1, h.1.2]

/-- The unique-element-collection transform `[...set]` preserves
well-formedness. -/
theorem serWF_mapSomeArr :
    ∀ es : List JSValue, serWFList es = true →
      serWF (.arr (es.map some)) = true := by
  intro es
  show serWFList es = true → serWFElems (es.map some) = true
  induction es with
  | nil => intro _; rfl
  | cons v t ih =>
    intro h
    simp only [serWFList, Bool.and_eq_true] at h
    simp only [List.map_cons, serWFElems, Bool.and_eq_true]
    exact ⟨h.1, ih h.2⟩

theorem serWF_enumFrom (opts : SerializeJSOptions) :
    ∀ (es : List (Option JSValue)) (i : Nat), serWFElems es = true →
      serWFFields ((List.enumFrom i es).filterMap
        fun p => (effElem opts p.2).map (fun v => (toString p.1, v))) = true := by
  intro es
  induction es with
  | nil => intro i _; rfl
  | cons e t ih =>
    intro i h
    simp only [serWFElems, Bool.and_eq_true] at h
    rw [show List.enumFrom i (e :: t) = (i, e) :: List.enumFrom (i + 1) t from rfl]
    cases e with
    | none =>
      have hnone : (fun (p : Nat × Option JSValue) =>
          (effElem opts p.2).map (fun v => (toString p.1, v)))
          (i, (none : Option JSValue)) = none := by
        simp [effElem]
      rw [@List.filterMap_cons_none (Nat × Option JSValue) (String × JSValue)
        (fun p => (effElem opts p.2).map (fun v => (toString p.1, v)))
        (i, none) (List.enumFrom (i + 1) t) hnone]
      exact ih (i + 1) h.2
    | some v =>
      have hv : serWF v = true := h.1
      cases hf : opts.ignoreFunction && isFunctionVal v with
      | true =>
        have hnone : (fun (p : Nat × Option JSValue) =>
            (effElem opts p.2).map (fun w => (toString p.1, w)))
            (i, some v) = none := by
          simp [effElem, hf]
        rw [@List.filterMap_cons_none (Nat × Option JSValue) (String × JSValue)
          (fun p => (effElem opts p.2).map (fun w => (toString p.1, w)))
          (i, some v) (List.enumFrom (i + 1) t) hnone]
        exact ih (i + 1) h.2
      | false =>
        have hsome : (fun (p : Nat × Option JSValue) =>
            (effElem opts p.2).map (fun w => (toString p.1, w)))
            (i, some v) = some (toString i, v) := by
          simp [effElem, hf]
        rw [@List.filterMap_cons_some (Nat × Option JSValue) (String × JSValue)
          (fun p => (effElem opts p.2).map (fun w => (toString p.1, w)))
          (i, some v) (List.enumFrom (i + 1) t) (toString i, v) hsome]
        simp only [serWFFields, Bool.and_eq_true]
        exact ⟨hv, ih (i + 1) h.2⟩

/-- The sparse-array transform `Object.assign(\x7blength\x7d, arr)` preserves
well-formedness. -/
theorem serWF_sparse (opts : SerializeJSOptions) (es : List (Option JSValue))
    (h : serWFElems es = true) : serWF (.obj (sparseFields opts es)) = true := by
  show serWFFields (sparseFields opts es) = true
  simp only [sparseFields, serWFFields_append, Bool.and_eq_true]
  constructor
  · rw [List.enum_eq_enumFrom]
    exact serWF_enumFrom opts es 0 h
  · rfl

/-- On well-formed values the replacer behaves identically with and without
the falsy fast exit: the only values the exit intercepts are falsy after the
`toJSON` conversion, and of those only invalid dates, empty-ISO dates and
empty-`href` URLs (all excluded by `serWF`) would have been classified
specially. -/
theorem replacerPhase_fe_eq
    (recF recT : SerializeJSOptions → JSValue → Except SerErr String)
    (uid : String) (opts : SerializeJSOptions) (orig : JSValue) (tb : Tables)
    (hwf : serWF orig = true)
    (hr : ∀ o w, msize w < msize orig → serWF w = true → recF o w = recT o w) :
    replacerPhase false recF uid opts orig tb
      = replacerPhase true recT uid opts orig tb := by
  cases orig with
  | str s =>
    simp only [replacerPhase]
    cases fastExitCond (toJSONconv (.str s)) <;> rfl
  | num n0 =>
    cases n0 with
    | int i =>
      simp only [replacerPhase]
      cases fastExitCond (toJSONconv (.num (.int i))) <;> rfl
    | nan => rfl
    | inf => rfl
    | negInf => rfl
  | bool b =>
    simp only [replacerPhase]
    cases fastExitCond (toJSONconv (.bool b)) <;> rfl
  | null => rfl
  | undef => rfl
  | bigint i =>
    simp only [replacerPhase]
    rw [show toJSONconv (.bigint i) = .bigint i from rfl, fastExit_bigint]
    rfl
  | date iso =>
    cases iso with
    | none => exact Bool.noConfusion hwf
    | some s =>
      have h0 : (s == "") = false := by
        cases hh : s == ""
        · rfl
        · rw [show serWF (.date (some s)) = !(s == "") from rfl, hh] at hwf
          exact Bool.noConfusion hwf
      simp only [replacerPhase]
      rw [show toJSONconv (.date (some s)) = .str s from rfl, fastExit_str, h0]
      rfl
  | regexp rsrc rflags =>
    simp only [replacerPhase]
    rw [hr {} (.str rsrc) (msize_str_lt_regexp rsrc rsrc rflags) rfl]
    rfl
  | url h =>
    have h0 : (h == "") = false := by
      cases hh : h == ""
      · rfl
      · rw [show serWF (.url h) = !(h == "") from rfl, hh] at hwf
        exact Bool.noConfusion hwf
    simp only [replacerPhase]
    rw [show toJSONconv (.url h) = .str h from rfl, fastExit_str, h0,
      hr opts (.str h) (msize_str_lt_url h h) rfl]
    rfl
  | jsMap es =>
    simp only [replacerPhase]
    rw [hr opts (.arr (es.map fun p => some (.arr [some p.1, some p.2])))
      (msize_mapPairs es) (serWF_mapPairsArr es hwf)]
    rfl
  | jsSet es =>
    simp only [replacerPhase]
    rw [hr opts (.arr (es.map some)) (msize_mapSome es) (serWF_mapSomeArr es hwf)]
    rfl
  | arr es =>
    simp only [replacerPhase]
    cases ha : es.any (fun e => (effElem opts e).isNone) with
    | false => rfl
    | true =>
      rw [hr opts (.obj (sparseFields opts es)) (msize_sparseObj opts es ha)
        (serWF_sparse opts es hwf)]
      rfl
  | obj fs => rfl
  | func fsrc fname => rfl

/-- On well-formed values the stringify pass is identical with and without the
falsy fast exit, for nested serializers that agree on smaller well-formed
values.  Proved for the three mutual traversal functions at once, by strong
induction on the measure. -/
theorem go_fe_eq (uid : String) (useRep : Bool) (gap : String)
    (recF recT : SerializeJSOptions → JSValue → Except SerErr String) :
    ∀ n : Nat,
      (∀ v : JSValue, msize v ≤ n → serWF v = true → ∀ opts : SerializeJSOptions,
        (∀ o w, msize w < msize v → serWF w = true → recF o w = recT o w) →
        ∀ ind tb, goVal false recF uid opts useRep gap v ind tb
          = goVal true recT uid opts useRep gap v ind tb) ∧
      (∀ fs : List (String × JSValue), msizeFields fs ≤ n → serWFFields fs = true →
        ∀ opts,
        (∀ o w, msize w ≤ msizeFields fs → serWF w = true → recF o w = recT o w) →
        ∀ ind tb, goFields false recF uid opts useRep gap fs ind tb
          = goFields true recT uid opts useRep gap fs ind tb) ∧
      (∀ es : List (Option JSValue), msizeElems es ≤ n → serWFElems es = true →
        ∀ opts,
        (∀ o w, msize w ≤ msizeElems es → serWF w = true → recF o w = recT o w) →
        ∀ ind tb, goElems false recF uid opts useRep gap es ind tb
          = goElems true recT uid opts useRep gap es ind tb) := by
  intro n
  induction n using Nat.strong_induction_on with
  | _ n ih =>
    refine ⟨?_, ?_, ?_⟩
    · intro v hv hwf opts hr ind tb
      rw [goVal_unfold, goVal_unfold]
      have hcore : ∀ tb1, goValCore false recF uid opts useRep gap ind v tb1
          = goValCore true recT uid opts useRep gap ind v tb1 := by
        intro tb1
        cases v with
        | obj fs =>
          have hsz : msize (.obj fs) = 4 + msizeFields fs := rfl
          have hfs := (ih (msizeFields fs) (by rw [hsz] at hv; omega)).2.1 fs
            (Nat.le_refl _) (show serWFFields fs = true from hwf) opts
            (fun o w hw hwfw => hr o w (by rw [hsz]; omega) hwfw) (ind ++ gap) tb1
          simp only [goValCore]
          rw [hfs]
        | arr es =>
          have hsz : msize (.arr es) = 6 + msizeElems es := rfl
          have hes := (ih (msizeElems es) (by rw [hsz] at hv; omega)).2.2 es
            (Nat.le_refl _) (show serWFElems es = true from hwf) opts
            (fun o w hw hwfw => hr o w (by rw [hsz]; omega) hwfw) (ind ++ gap) tb1
          simp only [goValCore]
          rw [hes]
        | num n0 => cases n0 <;> rfl
        | date iso => cases iso <;> rfl
        | _ => rfl
      cases useRep with
      | false => exact hcore tb
      | true =>
        rw [replacerPhase_fe_eq recF recT uid opts v tb hwf hr]
        exact exbind_congr _ _ _ (fun a _ => by
          obtain ⟨repl, tb1⟩ := a
          cases repl with
          | some ph => rfl
          | none => exact hcore tb1)
    · intro fs hfs hwfF opts hr ind tb
      cases fs with
      | nil => rfl
      | cons p t =>
        obtain ⟨k, v⟩ := p
        have hsz : msizeFields ((k, v) :: t) = 4 + msize v + msizeFields t := rfl
        have hkv : serWF v = true ∧ serWFFields t = true := by
          simpa [serWFFields, Bool.and_eq_true] using hwfF
        have ht : ∀ tb1, goFields false recF uid opts useRep gap t ind tb1
            = goFields true recT uid opts useRep gap t ind tb1 :=
          fun tb1 => (ih (msizeFields t) (by rw [hsz] at hfs; omega)).2.1 t
            (Nat.le_refl _) hkv.2 opts
            (fun o w hw hwfw => hr o w (by rw [hsz]; omega) hwfw) ind tb1
        rw [goFields_cons_unfold, goFields_cons_unfold]
        split
        · exact ht tb
        · have hval := (ih (msize v) (by rw [hsz] at hfs; omega)).1 v
            (Nat.le_refl _) hkv.1 opts
            (fun o w hw hwfw => hr o w (by rw [hsz]; omega) hwfw) ind tb
          rw [hval]
          exact exbind_congr _ _ _ (fun a _ => by
            obtain ⟨r, tb1⟩ := a
            show (goFields false recF uid opts useRep gap t ind tb1 >>= _)
              = (goFields true recT uid opts useRep gap t ind tb1 >>= _)
            rw [ht tb1])
    · intro es hes hwfE opts hr ind tb
      cases es with
      | nil => rfl
      | cons e t =>
        cases e with
        | some v =>
          have hsz : msizeElems (some v :: t) = 6 + msize v + msizeElems t := rfl
          have hkv : serWF v = true ∧ serWFElems t = true := by
            simpa [serWFElems, serWFOpt, Bool.and_eq_true] using hwfE
          have ht : ∀ tb1, goElems false recF uid opts useRep gap t ind tb1
              = goElems true recT uid opts useRep gap t ind tb1 :=
            fun tb1 => (ih (msizeElems t) (by rw [hsz] at hes; omega)).2.2 t
              (Nat.le_refl _) hkv.2 opts
              (fun o w hw hwfw => hr o w (by rw [hsz]; omega) hwfw) ind tb1
          rw [goElems_some_unfold, goElems_some_unfold]
          split
          · split
            · show (goElems false recF uid opts useRep gap t ind _ >>= _)
                = (goElems true recT uid opts useRep gap t ind _ >>= _)
              rw [ht]
            · show (goElems false recF uid opts useRep gap t ind _ >>= _)
                = (goElems true recT uid opts useRep gap t ind _ >>= _)
              rw [ht]
          · have hval := (ih (msize v) (by rw [hsz] at hes; omega)).1 v
              (Nat.le_refl _) hkv.1 opts
              (fun o w hw hwfw => hr o w (by rw [hsz]; omega) hwfw) ind tb
            rw [hval]
            exact exbind_congr _ _ _ (fun a _ => by
              obtain ⟨r, tb1⟩ := a
              show (goElems false recF uid opts useRep gap t ind tb1 >>= _)
                = (goElems true recT uid opts useRep gap t ind tb1 >>= _)
              rw [ht tb1])
        | none =>
          have ht' : serWFElems t = true := by
            simpa [serWFElems, serWFOpt] using hwfE
          have ht : ∀ tb1, goElems false recF uid opts useRep gap t ind tb1
              = goElems true recT uid opts useRep gap t ind tb1 :=
            fun tb1 => (ih (msizeElems t)
                (by simp only [msizeElems] at hes; omega)).2.2 t
              (Nat.le_refl _) ht' opts
              (fun o w hw hwfw => hr o w (by simp only [msizeElems]; omega) hwfw)
              ind tb1
          rw [goElems_none_unfold, goElems_none_unfold]
          split
          · show (goElems false recF uid opts useRep gap t ind _ >>= _)
              = (goElems true recT uid opts useRep gap t ind _ >>= _)
            rw [ht]
          · show (goElems false recF uid opts useRep gap t ind _ >>= _)
              = (goElems true recT uid opts useRep gap t ind _ >>= _)
            rw [ht]

/-- The fuelled serializer gives identical results with and without the falsy
fast exit on every well-formed value, for any two sufficient fuels. -/
theorem serializeJSF_fe_eq (uid : String) :
    ∀ n : Nat, ∀ v : JSValue, msize v ≤ n → serWF v = true →
      ∀ (opts : SerializeJSOptions) (f g : Nat), msize v < f → msize v < g →
      serializeJSF false f uid opts v = serializeJSF true g uid opts v := by
  intro n
  induction n using Nat.strong_induction_on with
  | _ n ih =>
    intro v hv hwf opts f g hf hg
    obtain ⟨f1, rfl⟩ : ∃ f1, f = f1 + 1 := ⟨f - 1, by omega⟩
    obtain ⟨g1, rfl⟩ : ∃ g1, g = g1 + 1 := ⟨g - 1, by omega⟩
    show serializeJSBody false (fun o w => serializeJSF false f1 uid o w) uid opts v
      = serializeJSBody true (fun o w => serializeJSF true g1 uid o w) uid opts v
    have hgv : ∀ obj1 : JSValue, msize obj1 ≤ msize v → serWF obj1 = true →
        goVal false (fun o w => serializeJSF false f1 uid o w) uid opts (!opts.isJSON)
            (if opts.isJSON && !(spaceTruthy opts.space) then "" else gapOf opts.space)
            obj1 "" {}
          = goVal true (fun o w => serializeJSF true g1 uid o w) uid opts (!opts.isJSON)
            (if opts.isJSON && !(spaceTruthy opts.space) then "" else gapOf opts.space)
            obj1 "" {} :=
      fun obj1 hle hwf1 => (go_fe_eq uid (!opts.isJSON)
        (if opts.isJSON && !(spaceTruthy opts.space) then "" else gapOf opts.space)
        (fun o w => serializeJSF false f1 uid o w)
        (fun o w => serializeJSF true g1 uid o w) (msize obj1)).1 obj1 (Nat.le_refl _)
        hwf1 opts
        (fun o w hw hwfw => ih (msize w) (by omega) w (Nat.le_refl _) hwfw o f1 g1
          (by omega) (by omega)) "" {}
    simp only [serializeJSBody]
    split
    · rfl
    · split
      · rfl
      · rw [hgv v (Nat.le_refl _) hwf]

/-- C8 counterexample: for an invalid `Date` the two variants differ — the
`toJSON` conversion is `null`, so the falsy fast exit returns it unchanged and
the output is the text `null`, while without the fast exit the value is
classified as a date and its reconstruction calls `toISOString()`, which
throws `RangeError` on an invalid date. -/
theorem c8_counterexample_invalid_date :
    serializeJS "aa" {} (.date none) = .ok "null" ∧
    serializeJSNoFastExit "aa" {} (.date none) = .error .rangeError ∧
    (Except.ok "null" : Except SerErr String) ≠ .error .rangeError :=
  ⟨rfl, rfl, nofun⟩

/-- C8 amended: the encoder with the falsy fast exit is observationally equal
to the encoder without it on every value containing no invalid date, no valid
date with an empty ISO text and no URL with an empty `href` (conditions every
value built from real `Date` and `URL` objects satisfies), for every options
configuration. -/
theorem c8_fast_exit_equivalent (uid : String) (opts : SerializeJSOptions)
    (v : JSValue) (hwf : serWF v = true) :
    serializeJSNoFastExit uid opts v = serializeJS uid opts v :=
  serializeJSF_fe_eq uid (msize v) v (Nat.le_refl _) hwf opts (msize v + 1)
    (msize v + 1) (Nat.lt_succ_self _) (Nat.lt_succ_self _)

theorem c8_fast_exit_equivalent_witness :
    serWF (.obj [("d", .date (some "2020-01-01T00:00:00.000Z")),
        ("m", .jsMap [(.num (.int 1), .str "x")]), ("n", .num .nan)]) = true ∧
    serializeJSNoFastExit "aa" {}
        (.obj [("d", .date (some "2020-01-01T00:00:00.000Z")),
          ("m", .jsMap [(.num (.int 1), .str "x")]), ("n", .num .nan)])
      = serializeJS "aa" {}
        (.obj [("d", .date (some "2020-01-01T00:00:00.000Z")),
          ("m", .jsMap [(.num (.int 1), .str "x")]), ("n", .num .nan)]) :=
  ⟨rfl, c8_fast_exit_equivalent "aa" {} _ rfl⟩

-- C6: placeholder safety ------------------------------------------------------

theorem bandl {a b : Bool} (h : (a && b) = true) : a = true := by
  cases a
  · exact Bool.noConfusion h
  · rfl

theorem bandr {a b : Bool} (h : (a && b) = true) : b = true := by
  cases a
  · exact Bool.noConfusion h
  · exact h

theorem all_mem (p : Char → Bool) :
    ∀ l : List Char, l.all p = true → ∀ c ∈ l, p c = true := by
  intro l
  induction l with
  | nil => intro _ c hc; cases hc
  | cons a t ih =>
    intro h c hc
    cases hc with
    | head => exact bandl h
    | tail _ hc2 => exact ih (bandr h) c hc2

theorem quoteJSONChar_plain (c : Char) (h : plainChar c = true) :
    quoteJSONChar c = String.mk [c] := by
  have h1 : (!(c == '"')) = true :=
    bandl (bandl (bandl (bandl (bandl (bandl (bandl h))))))
  have h2 : (!(c == '\\')) = true :=
    bandr (bandl (bandl (bandl (bandl (bandl (bandl h))))))
  have h3 : (!(decide (c.val < 0x20))) = true :=
    bandr (bandl (bandl (bandl (bandl (bandl h)))))
  have hne1 : ¬(c = '"') := fun hc => by rw [hc] at h1; exact Bool.noConfusion h1
  have hne2 : ¬(c = '\\') := fun hc => by rw [hc] at h2; exact Bool.noConfusion h2
  have hn3 : ¬(c.val < 0x20) := fun hc => by
    rw [decide_eq_true hc] at h3; exact Bool.noConfusion h3
  have hb : ¬(c = '\x08') := fun hc => hn3 (by rw [hc]; decide)
  have hf : ¬(c = '\x0c') := fun hc => hn3 (by rw [hc]; decide)
  have hnl : ¬(c = '\n') := fun hc => hn3 (by rw [hc]; decide)
  have hcr : ¬(c = '\r') := fun hc => hn3 (by rw [hc]; decide)
  have htb : ¬(c = '\t') := fun hc => hn3 (by rw [hc]; decide)
  simp only [quoteJSONChar]
  rw [if_neg hne1, if_neg hne2, if_neg hb, if_neg hf, if_neg hnl, if_neg hcr,
    if_neg htb, if_neg hn3]

theorem escapeUnsafeChar_plain (c : Char) (h : plainChar c = true) :
    escapeUnsafeChar c = String.mk [c] := by
  have h4 : (!(c == '<')) = true := bandr (bandl (bandl (bandl (bandl h))))
  have h5 : (!(c == '>')) = true := bandr (bandl (bandl (bandl h)))
  have h6 : (!(c == '/')) = true := bandr (bandl (bandl h))
  have h7 : (!(c == ' ')) = true := bandr (bandl h)
  have h8 : (!(c == ' ')) = true := bandr h
  have hne4 : ¬(c = '<') := fun hc => by rw [hc] at h4; exact Bool.noConfusion h4
  have hne5 : ¬(c = '>') := fun hc => by rw [hc] at h5; exact Bool.noConfusion h5
  have hne6 : ¬(c = '/') := fun hc => by rw [hc] at h6; exact Bool.noConfusion h6
  have hne7 : ¬(c = ' ') := fun hc => by
    rw [hc] at h7; exact Bool.noConfusion h7
  have hne8 : ¬(c = ' ') := fun hc => by
    rw [hc] at h8; exact Bool.noConfusion h8
  simp only [escapeUnsafeChar]
  rw [if_neg hne4, if_neg hne5, if_neg hne6, if_neg hne7, if_neg hne8]

theorem join_map_singles (f : Char → String) (t : List Char)
    (h : ∀ c ∈ t, f c = String.mk [c]) :
    String.join (t.map f) = String.mk t := by
  have key : ∀ (t : List Char), (∀ c ∈ t, f c = String.mk [c]) → ∀ acc : String,
      List.foldl (fun r s => r ++ s) acc (t.map f) = acc ++ String.mk t := by
    intro t
    induction t with
    | nil =>
      intro _ acc
      show acc = acc ++ ""
      exact (String.append_empty acc).symm
    | cons c t2 ih =>
      intro hc acc
      simp only [List.map_cons, List.foldl_cons]
      rw [hc c (List.mem_cons_self c t2),
        ih (fun x hx => hc x (List.mem_cons_of_mem c hx)) (acc ++ String.mk [c]),
        String.append_assoc]
      rfl
  show List.foldl (fun r s => r ++ s) "" (t.map f) = String.mk t
  rw [key t h ""]
  exact String.empty_append _

theorem jsonQuote_plain (s : String) (h : s.data.all plainChar = true) :
    jsonQuote s = "\"" ++ s ++ "\"" := by
  show "\"" ++ String.join (s.data.map quoteJSONChar) ++ "\"" = "\"" ++ s ++ "\""
  rw [join_map_singles quoteJSONChar s.data
    (fun c hc => quoteJSONChar_plain c (all_mem plainChar s.data h c hc))]

theorem escapeUnsafe_quoted_plain (s : String) (h : s.data.all plainChar = true) :
    escapeUnsafe ("\"" ++ s ++ "\"") = "\"" ++ s ++ "\"" := by
  show String.join (("\"" ++ s ++ "\"").data.map escapeUnsafeChar) = "\"" ++ s ++ "\""
  rw [join_map_singles escapeUnsafeChar ("\"" ++ s ++ "\"").data ?hch]
  case hch =>
    intro c hc
    rw [show ("\"" ++ s ++ "\"").data = '"' :: (s.data ++ ['"']) from rfl] at hc
    cases hc with
    | head => rfl
    | tail _ hc2 =>
      rcases List.mem_append.mp hc2 with hs | hq
      · exact escapeUnsafeChar_plain c (all_mem plainChar s.data h c hs)
      · cases hq with
        | head => rfl
        | tail _ hc3 => cases hc3

/-- The replacer passes every plain string value through to the JSON core. -/
theorem replacerPhase_str (fe : Bool)
    (rec : SerializeJSOptions → JSValue → Except SerErr String)
    (uid : String) (opts : SerializeJSOptions) (s : String) (tb : Tables) :
    replacerPhase fe rec uid opts (.str s) tb = .ok (none, tb) := by
  simp only [replacerPhase]
  cases fastExitCond (toJSONconv (.str s)) <;> cases fe <;> rfl

/-- Serializing a root string value with default options: the JSON quoting of
the string, with the unsafe characters escaped; the placeholder tables stay
empty, so the substitution pass is skipped. -/
theorem serializeJS_str_eq (uid tok : String) :
    serializeJS uid {} (.str tok) = .ok (escapeUnsafe (jsonQuote tok)) := by
  rw [show serializeJS uid {} (.str tok)
      = (goVal true (fun o v => serializeJSF true 1 uid o v) uid {} true ""
          (.str tok) "" {} >>= fun p =>
         match p.1 with
         | none => .ok "undefined"
         | some str =>
           if Tables.isEmpty p.2 then .ok (escapeUnsafe str)
           else substPlaceholders uid p.2 (escapeUnsafe str)) from rfl]
  rw [goVal_unfold, replacerPhase_str]
  rfl

/-- A run of plain characters (no quote, no backslash) parses back verbatim
from a string-literal body. -/
theorem parseStrBody_plain :
    ∀ l : List Char, (∀ c ∈ l, plainChar c = true) →
      parseStrBody (l ++ ['"']) = some (l, []) := by
  intro l
  induction l with
  | nil => intro _; rfl
  | cons c t ih =>
    intro h
    have hp := h c (List.mem_cons_self c t)
    have h1 : ¬(c = '"') := fun hc => by
      rw [hc] at hp; exact Bool.noConfusion hp
    have h2 : ¬(c = '\\') := fun hc => by
      rw [hc] at hp; exact Bool.noConfusion hp
    have hstep : parseStrBody (c :: (t ++ ['"'])) = (do
        let (s, r) ← parseStrBody (t ++ ['"'])
        some (c :: s, r)) := by
      rw [parseStrBody.eq_def]
      split
      all_goals first
        | rfl
        | (exact absurd rfl h1)
        | (exact absurd rfl h2)
        | simp_all
    rw [List.cons_append, hstep, ih (fun x hx => h x (List.mem_cons_of_mem c hx))]
    rfl

/-- Evaluating a double-quoted literal whose body parses cleanly yields the
parsed string. -/
theorem jsEval_quoted (text : String) (content : List Char)
    (hd : text.data = '"' :: (content ++ ['"']))
    (hp : parseStrBody (content ++ ['"']) = some (content, [])) :
    jsEval text = some (.str (String.mk content)) := by
  unfold jsEval
  rw [hd]
  show (match parseStrBody (content ++ ['"']) with
        | some (c, []) => some (JSValue.str (String.mk c))
        | _ => none) = some (.str (String.mk content))
  rw [hp]

/-- A successful placeholder match always consumes at least one character. -/
theorem tryQuoted_length (uid cs : List Char) (tag : Char) (ds span rest : List Char)
    (h : tryQuoted uid cs = some (tag, ds, span, rest)) : rest.length < cs.length := by
  rw [tryQuoted.eq_def] at h
  split at h
  case _ tag1 r1 =>
    split at h
    · split at h
      · split at h
        case _ r2 hdrop =>
          split at h
          case _ r3 hdw =>
            dsimp only [] at h
            split at h
            · exact absurd h (by simp)
            · have hr : r3 = rest := by
                have := Option.some.inj h
                exact congrArg (fun q => q.2.2.2) this
              have e1 : r3.length + 4 = (r2.dropWhile Char.isDigit).length := by
                rw [hdw]; simp
              subst hr
              have e2 : (r2.dropWhile Char.isDigit).length ≤ r2.length :=
                List.Sublist.length_le (List.dropWhile_sublist Char.isDigit)
              have e3 : (r1.drop uid.length).length = r2.length + 1 := by
                rw [hdrop]; simp
              have e4 : (r1.drop uid.length).length ≤ r1.length := by
                rw [List.length_drop]; omega
              simp only [List.length_cons]
              omega
          case _ => simp at h
        case _ => exact absurd h (by simp)
      · exact absurd h (by simp)
    · exact absurd h (by simp)
  case _ => exact absurd h (by simp)

/-- The backslash guard of the substitution pass: a placeholder match
immediately preceded by a backslash (the `(\\)?` capture of
`PLACE_HOLDER_REGEXP`) is returned unchanged — backslash included — and
scanning resumes after the match, so the token is treated as inert user
string content. -/
theorem substPH_backslash_guard (uid : List Char) (tb : Tables)
    (cs : List Char) (tag : Char) (ds span rest : List Char)
    (htq : tryQuoted uid cs = some (tag, ds, span, rest)) :
    substPHChars uid tb ('\\' :: cs)
      = (substPHChars uid tb rest).map (fun out => ('\\' :: span) ++ out) := by
  have hlen : rest.length < cs.length := tryQuoted_length uid cs tag ds span rest htq
  have htm : tryMatchPH uid ('\\' :: cs) = some (true, tag, ds, '\\' :: span, rest) := by
    rw [show tryMatchPH uid ('\\' :: cs)
        = (match tryQuoted uid cs with
           | some (tag1, ds1, span1, rest1) =>
             some (true, tag1, ds1, '\\' :: span1, rest1)
           | none => none) from rfl, htq]
  rw [substPHChars.eq_def]
  show (match tryMatchPH uid ('\\' :: cs) with
        | some (guarded, tag1, ds1, span1, rest1) =>
          if _hlt : rest1.length < cs.length + 1 then
            if guarded then (substPHChars uid tb rest1).map (fun out => span1 ++ out)
            else do
              let r ← reconFor tb tag1 ds1
              (substPHChars uid tb rest1).map (fun out => r.data ++ out)
          else (substPHChars uid tb cs).map (fun out => '\\' :: out)
        | none => (substPHChars uid tb cs).map (fun out => '\\' :: out))
      = (substPHChars uid tb rest).map (fun out => ('\\' :: span) ++ out)
  rw [htm]
  show (if _hlt : rest.length < cs.length + 1 then
          (substPHChars uid tb rest).map (fun out => ('\\' :: span) ++ out)
        else (substPHChars uid tb cs).map (fun out => '\\' :: out))
      = (substPHChars uid tb rest).map (fun out => ('\\' :: span) ++ out)
  rw [dif_pos (show rest.length < cs.length + 1 by omega)]

/-- C6: placeholder safety.  First, a string value that is literally a
placeholder-shaped token (here with tag `F`, any identifier and digit text
made of plain characters) round-trips through encode and decode to exactly
the same string, not to a reconstructed function: the root pass produces no
placeholder, so the tables stay empty and the substitution pass is skipped.
Second, during substitution a placeholder match immediately preceded by an
unescaped backslash is left untouched as inert user string content. -/
theorem c6_placeholder_tokens_inert (uid u d : String)
    (hu : u.data.all plainChar = true) (hd : d.data.all plainChar = true) :
    (serializeJS uid {} (.str ("@__F-" ++ u ++ "-" ++ d ++ "__@"))
        = .ok ("\"" ++ ("@__F-" ++ u ++ "-" ++ d ++ "__@") ++ "\"") ∧
      jsEval ("\"" ++ ("@__F-" ++ u ++ "-" ++ d ++ "__@") ++ "\"")
        = some (.str ("@__F-" ++ u ++ "-" ++ d ++ "__@"))) ∧
    (∀ (tb : Tables) (cs : List Char) (tag : Char) (ds span rest : List Char),
      tryQuoted uid.data cs = some (tag, ds, span, rest) →
      substPHChars uid.data tb ('\\' :: cs)
        = (substPHChars uid.data tb rest).map (fun out => ('\\' :: span) ++ out)) := by
  have htok : ("@__F-" ++ u ++ "-" ++ d ++ "__@").data.all plainChar = true := by
    simp only [String.data_append, List.all_append, Bool.and_eq_true]
    exact ⟨⟨⟨⟨by rfl, hu⟩, by rfl⟩, hd⟩, by rfl⟩
  refine ⟨⟨?_, ?_⟩, ?_⟩
  · rw [serializeJS_str_eq, jsonQuote_plain _ htok, escapeUnsafe_quoted_plain _ htok]
  · exact jsEval_quoted _ ("@__F-" ++ u ++ "-" ++ d ++ "__@").data rfl
      (parseStrBody_plain _ (all_mem plainChar _ htok))
  · intro tb cs tag ds span rest htq
    exact substPH_backslash_guard uid.data tb cs tag ds span rest htq

theorem c6_placeholder_tokens_inert_witness :
    (serializeJS "aa" {} (.str ("@__F-" ++ "bbbb" ++ "-" ++ "0" ++ "__@"))
        = .ok ("\"" ++ ("@__F-" ++ "bbbb" ++ "-" ++ "0" ++ "__@") ++ "\"") ∧
      jsEval ("\"" ++ ("@__F-" ++ "bbbb" ++ "-" ++ "0" ++ "__@") ++ "\"")
        = some (.str ("@__F-" ++ "bbbb" ++ "-" ++ "0" ++ "__@"))) ∧
    substPHChars "aa".data {} ('\\' :: "\"@__F-aa-0__@\"".data)
      = (substPHChars "aa".data {} []).map
          (fun out => ('\\' :: "\"@__F-aa-0__@\"".data) ++ out) :=
  ⟨(c6_placeholder_tokens_inert "aa" "bbbb" "0" rfl rfl).1,
   (c6_placeholder_tokens_inert "aa" "bbbb" "0" rfl rfl).2 {}
     "\"@__F-aa-0__@\"".data 'F' ['0'] "\"@__F-aa-0__@\"".data [] rfl⟩
